import Mathlib

/-! Partition validity checking (CGAL 2.3, `partition_is_valid_2.h`) and the
segment/triangle intersection classifier (`Segment_2_Triangle_2_intersection.h`).

A shallow embedding of the circular boundary matchers `polygons_are_equal` and
`polygons_w_steiner_are_equal`, of the validator `partition_is_valid_2`, and of the
class `Segment_2_Triangle_2_pair` with the free functions built on it, followed by
theorems about them.

A circulator over a sequence is embedded as an index into a list: `*c` is the
lookup `xs[c]?`, `c++` is `(c + 1) % xs.length`, and two circulators over the same
sequence are equal exactly when their indices are.  The circulator handed to a
matcher (`orig_first`, `new_first` on entry) is index `0`.  A lookup in an empty
sequence has no value, so a matcher applied to an empty sequence yields `none`.
-/

namespace CGAL

/-! ## Kernel -/

/-- A point of the plane with exact integer coordinates, compared coordinate-wise. -/
structure Point_2 where
  x : Int
  y : Int
deriving DecidableEq, Repr

/-- The two kernel predicates the Steiner-tolerant matcher calls on points. -/
structure Kernel (α : Type) where
  collinear : α → α → α → Bool
  collinear_are_ordered_along_line : α → α → α → Bool

/-- Modelled from the spec: the kernel predicate `collinear(point, point, point)`, whose
definition is not part of the sources at hand; three points are collinear when the
orientation determinant vanishes. -/
def collinear (p q r : Point_2) : Bool :=
  decide ((q.x - p.x) * (r.y - p.y) = (r.x - p.x) * (q.y - p.y))

/-- Modelled from the spec: the kernel predicate `collinear_are_ordered_along_line`
(`collinear_ordered`, "betweenness"), whose definition is not part of the sources at
hand; for collinear `p`, `q`, `r` it says that `q` lies strictly between `p` and `r`
along their line. -/
def collinear_are_ordered_along_line (p q r : Point_2) : Bool :=
  if p.x < q.x then decide (q.x < r.x)
  else if q.x < p.x then decide (r.x < q.x)
  else if p.y < q.y then decide (q.y < r.y)
  else if q.y < p.y then decide (r.y < q.y)
  else false

/-- The kernel over `Point_2`. -/
def point_kernel : Kernel Point_2 where
  collinear := collinear
  collinear_are_ordered_along_line := collinear_are_ordered_along_line

/-! ## Circular boundary matchers -/

section Matchers

variable {α : Type} [DecidableEq α]

/-- The anchor search shared by both matchers:
`for (new_circ = new_first; *new_circ != *orig_first && ++new_circ != new_first;) {}`.
The result is the final value of `new_circ`.  The first argument bounds the number of
loop tests; the second is the current `new_circ`. -/
def find_first_vertex (P Q : List α) : Nat → Nat → Option Nat
  | 0, _ => none
  | fuel + 1, new_circ =>
    match Q[new_circ]?, P[0]? with
    | some c, some o =>
      if c ≠ o then
        let next := (new_circ + 1) % Q.length
        if next ≠ 0 then find_first_vertex P Q fuel next else some next
      else some new_circ
    | _, _ => none

/-- The lock-step `do { orig_circ++; new_circ++; } while (...)` loop of
`polygons_are_equal` together with the `return` that follows it.  `orig_first` is
index `0`; `new_first` is the anchor. -/
def polygons_are_equal_loop (P Q : List α) (new_first : Nat) : Nat → Nat → Nat → Option Bool
  | 0, _, _ => none
  | fuel + 1, orig_circ, new_circ =>
    let orig_next := (orig_circ + 1) % P.length
    let new_next := (new_circ + 1) % Q.length
    match P[orig_next]?, Q[new_next]? with
    | some o, some c =>
      if o = c ∧ orig_next ≠ 0 ∧ new_next ≠ new_first then
        polygons_are_equal_loop P Q new_first fuel orig_next new_next
      else some (decide (orig_next = 0 ∧ new_next = new_first))
    | _, _ => none

/-- The exact matcher `polygons_are_equal(orig_first, new_first)`; `P` is the original
sequence and `Q` the candidate. -/
def polygons_are_equal (P Q : List α) : Option Bool :=
  match find_first_vertex P Q Q.length 0 with
  | none => none
  | some new_first => polygons_are_equal_loop P Q new_first Q.length 0 new_first

/-- The `do { ... } while (orig_circ != orig_first && new_circ != new_first)` loop of
`polygons_w_steiner_are_equal` together with the `return` that follows it. -/
def polygons_w_steiner_are_equal_loop (K : Kernel α) (P Q : List α) (new_first : Nat) :
    Nat → α → Nat → Nat → Option Bool
  | 0, _, _, _ => none
  | fuel + 1, prev_pt, orig_circ, new_circ =>
    match Q[new_circ]?, P[orig_circ]? with
    | some c, some o =>
      if c = o then
        let new_next := (new_circ + 1) % Q.length
        let orig_next := (orig_circ + 1) % P.length
        if orig_next ≠ 0 ∧ new_next ≠ new_first then
          polygons_w_steiner_are_equal_loop K P Q new_first fuel c orig_next new_next
        else some (decide (orig_next = 0 ∧ new_next = new_first))
      else if K.collinear prev_pt c o = false then some false
      else if K.collinear_are_ordered_along_line prev_pt c o = false then some false
      else
        let new_next := (new_circ + 1) % Q.length
        if orig_circ ≠ 0 ∧ new_next ≠ new_first then
          polygons_w_steiner_are_equal_loop K P Q new_first fuel c orig_circ new_next
        else some (decide (orig_circ = 0 ∧ new_next = new_first))
    | _, _ => none

/-- The Steiner-tolerant matcher `polygons_w_steiner_are_equal(orig_first, new_first)`;
`P` is the original sequence and `Q` the candidate. -/
def polygons_w_steiner_are_equal (K : Kernel α) (P Q : List α) : Option Bool :=
  match find_first_vertex P Q Q.length 0 with
  | none => none
  | some new_circ =>
    if new_circ = 0 then some false
    else
      match Q[new_circ]? with
      | none => none
      | some prev_pt => polygons_w_steiner_are_equal_loop K P Q new_circ Q.length prev_pt 0 new_circ

end Matchers

/-! ## Partition validator -/

/-- The kernel's orientation values. -/
inductive Orientation
  | CLOCKWISE
  | COLLINEAR
  | COUNTERCLOCKWISE
deriving DecidableEq, Repr

/-- How a call of the validator ends: with a boolean verdict, in the failure raised by
`CGAL_partition_precondition`, in the failure raised by `CGAL_partition_assertion`, or
by dereferencing a circulator over an empty sequence. -/
inductive Outcome
  | verdict (b : Bool)
  | precondition_failure
  | assertion_failure
  | undefined_dereference
deriving DecidableEq, Repr

/-- What the validator reads from a `Partition_vertex_map` built from the sub-polygons:
the answer of `polygons_overlap()` and the sequence written by `union_vertices`.  The
class itself is declared in a header that is not among the sources at hand. -/
structure Partition_vertex_map (α : Type) where
  polygons_overlap : Bool
  union_vertices : List α

/-- The collaborators of the validator that are declared outside the sources at hand,
taken as parameters: the kernel, `orientation_2` on a vertex range, the construction of
the vertex map from the sub-polygons, and the traits predicates `Is_convex_2` and
`Is_y_monotone_2`. -/
structure Partition_traits (α : Type) where
  kernel : Kernel α
  orientation_2 : List α → Orientation
  vertex_map : List (List α) → Partition_vertex_map α
  is_convex_2 : List α → Bool
  is_y_monotone_2 : List α → Bool

section Validator

variable {α : Type} [DecidableEq α]

/-- The `for (; poly_first != poly_last; poly_first++, poly_num++)` loop of
`partition_is_valid_2`: per sub-polygon the orientation assertion, then the validity
predicate.  `none` means the loop ran to its end without leaving the function. -/
def check_sub_polygons (traits : Partition_traits α) (is_valid : List α → Bool) :
    List (List α) → Option Outcome
  | [] => none
  | poly :: rest =>
    if traits.orientation_2 poly ≠ Orientation.COUNTERCLOCKWISE then
      some Outcome.assertion_failure
    else if is_valid poly = false then some (Outcome.verdict false)
    else check_sub_polygons traits is_valid rest

/-- The validator `partition_is_valid_2(point_first, point_last, poly_first, poly_last,
traits)`; `is_valid` is the object `traits.is_valid_object(traits)`.  The macros
`CGAL_partition_precondition` and `CGAL_partition_assertion` are taken in their checking
form: a failed check ends the call in the corresponding failure. -/
def partition_is_valid_2 (traits : Partition_traits α) (is_valid : List α → Bool)
    (points : List α) (polys : List (List α)) : Outcome :=
  if polys.isEmpty then Outcome.verdict points.isEmpty
  else if traits.orientation_2 points ≠ Orientation.COUNTERCLOCKWISE then
    Outcome.precondition_failure
  else
    let output_vertex_set := traits.vertex_map polys
    if output_vertex_set.polygons_overlap then Outcome.verdict false
    else
      match check_sub_polygons traits is_valid polys with
      | some out => out
      | none =>
        let union_polygon := output_vertex_set.union_vertices
        let result :=
          if points.length = union_polygon.length then
            polygons_are_equal points union_polygon
          else polygons_w_steiner_are_equal traits.kernel points union_polygon
        match result with
        | some b => Outcome.verdict b
        | none => Outcome.undefined_dereference

/-- Modelled from the spec: the predicate `Is_vacuously_valid`, declared outside the
sources at hand; the "vacuous always-true predicate". -/
def is_vacuously_valid (_poly : List α) : Bool := true

/-- The unconstrained variant `CGAL_partition_is_valid_2`. -/
def CGAL_partition_is_valid_2 (traits : Partition_traits α)
    (points : List α) (polys : List (List α)) : Outcome :=
  partition_is_valid_2 traits is_vacuously_valid points polys

/-- The wrapper `convex_partition_is_valid_2`. -/
def convex_partition_is_valid_2 (traits : Partition_traits α)
    (points : List α) (polys : List (List α)) : Outcome :=
  partition_is_valid_2 traits traits.is_convex_2 points polys

/-- The wrapper `y_monotone_partition_is_valid_2`. -/
def y_monotone_partition_is_valid_2 (traits : Partition_traits α)
    (points : List α) (polys : List (List α)) : Outcome :=
  partition_is_valid_2 traits traits.is_y_monotone_2 points polys

end Validator

/-! ## Concrete inputs over `Point_2` -/

/-- Twice the signed area of the closed polygon through `first :: rest`, by the
shoelace sum over consecutive vertices, closing with the edge back to `first`. -/
def twice_signed_area (first : Point_2) : Point_2 → List Point_2 → Int
  | last, [] => last.x * first.y - first.x * last.y
  | p, q :: rest => (p.x * q.y - q.x * p.y) + twice_signed_area first q rest

/-- Modelled from the spec: `orientation_2` on a vertex range, declared outside the
sources at hand; the sequence, "when traced", is counter-clockwise, clockwise or
degenerate according to the sign of its signed area. -/
def orientation_2 : List Point_2 → Orientation
  | [] => Orientation.COLLINEAR
  | first :: rest =>
    let a := twice_signed_area first first rest
    if 0 < a then Orientation.COUNTERCLOCKWISE
    else if a < 0 then Orientation.CLOCKWISE
    else Orientation.COLLINEAR

/-- Modelled from the spec: the left-turn test behind `Is_convex_2` ("is convex"),
declared outside the sources at hand, for a counter-clockwise vertex cycle given as
`first`, `second` and the vertices still to visit: no consecutive triple turns right. -/
def no_right_turn (first second : Point_2) : Point_2 → Point_2 → List Point_2 → Bool
  | p, q, [] =>
    decide (0 ≤ (q.x - p.x) * (first.y - p.y) - (first.x - p.x) * (q.y - p.y)) &&
    decide (0 ≤ (first.x - q.x) * (second.y - q.y) - (second.x - q.x) * (first.y - q.y))
  | p, q, r :: rest =>
    decide (0 ≤ (q.x - p.x) * (r.y - p.y) - (r.x - p.x) * (q.y - p.y)) &&
    no_right_turn first second q r rest

/-- Modelled from the spec: `Is_convex_2` on a vertex range ("is convex"). -/
def is_convex_2 : List Point_2 → Bool
  | p :: q :: rest => no_right_turn p q p q rest
  | _ => true

/-- Traits over `Point_2` for concrete inputs: the orientation and convexity tests
above, and a vertex map that reports the given overlap answer and union boundary. -/
def sample_traits (overlap : Bool) (union_polygon : List Point_2) (y_monotone : Bool) :
    Partition_traits Point_2 where
  kernel := point_kernel
  orientation_2 := orientation_2
  vertex_map := fun _ => { polygons_overlap := overlap, union_vertices := union_polygon }
  is_convex_2 := is_convex_2
  is_y_monotone_2 := fun _ => y_monotone

/-! ## Segment and triangle intersection (`Segment_2_Triangle_2_intersection.h`) -/

/-- A segment: the ordered pair of its endpoints, read by `start()` and `end()`. -/
structure Segment_2 (α : Type) where
  source : α
  target : α
deriving DecidableEq, Repr

/-- A triangle: its vertices `vertex(0)`, `vertex(1)`, `vertex(2)`. -/
structure Triangle_2 (α : Type) where
  v0 : α
  v1 : α
  v2 : α
deriving DecidableEq, Repr

/-- The directed line `Line_2(p, q)` through `p` and `q`. -/
structure Line_2 (α : Type) where
  p : α
  q : α
deriving DecidableEq, Repr

/-- The kernel's answers to `oriented_side`. -/
inductive Oriented_side
  | ON_NEGATIVE_SIDE
  | ON_ORIENTED_BOUNDARY
  | ON_POSITIVE_SIDE
deriving DecidableEq, Repr

/-- The answers of `Straight_2_::current_state()`: the three the classifier names, and
`OTHER` for any state it leaves to its `default:` branch. -/
inductive Straight_state
  | EMPTY
  | POINT
  | SEGMENT
  | OTHER
deriving DecidableEq, Repr

/-- The tag `Segment_2_Triangle_2_pair::Intersection_results`. -/
inductive Intersection_results
  | NO
  | POINT
  | SEGMENT
deriving DecidableEq, Repr

/-- The collaborators of the classifier that are declared outside the sources at hand,
taken as parameters: `Line_2::oriented_side` and, for a clipper state of type `σ`, the
operations of `Straight_2_` the classifier calls (construction from a segment,
`cut_right_off`, `current_state`, and `current` for a point and for a segment). -/
structure Clipping_kernel (α σ : Type) where
  oriented_side : Line_2 α → α → Oriented_side
  straight : Segment_2 α → σ
  cut_right_off : σ → Line_2 α → σ
  current_state : σ → Straight_state
  current_point : σ → α
  current_segment : σ → Segment_2 α

/-- The values of what the source leaves unset or default-constructs: the member
`_result` before the first classification, a default-constructed `Point_2`, and a
default-constructed `Segment_2`. -/
structure Defaults (α : Type) where
  result : Intersection_results
  point : α
  segment : Segment_2 α

/-- The data members of `Segment_2_Triangle_2_pair`. -/
structure Segment_2_Triangle_2_pair (α : Type) where
  _seg : Segment_2 α
  _trian : Triangle_2 α
  _known : Bool
  _result : Intersection_results
  _intersection_point : α
  _other_point : α
deriving DecidableEq, Repr

/-- The object a free `intersection` function returns: empty, a point or a segment. -/
inductive Object (α : Type)
  | empty
  | point (p : α)
  | segment (s : Segment_2 α)
deriving DecidableEq, Repr

section Classifier

variable {α σ : Type}

/-- The constructor `Segment_2_Triangle_2_pair(seg, trian)`: it sets `_known`, `_seg` and
`_trian` and nothing else. -/
def Segment_2_Triangle_2_pair.make (d : Defaults α) (seg : Segment_2 α)
    (trian : Triangle_2 α) : Segment_2_Triangle_2_pair α where
  _seg := seg
  _trian := trian
  _known := false
  _result := d.result
  _intersection_point := d.point
  _other_point := d.point

/-- The three directed lines `intersection_type()` hands to `cut_right_off`, in the order
of the calls, as chosen by the test
`l.oriented_side(_trian->vertex(2)) == ON_POSITIVE_SIDE` for the line `l` through
`vertex(0)` and `vertex(1)`. -/
def cut_lines (oriented_side : Line_2 α → α → Oriented_side) (trian : Triangle_2 α) :
    List (Line_2 α) :=
  if oriented_side ⟨trian.v0, trian.v1⟩ trian.v2 = Oriented_side.ON_POSITIVE_SIDE then
    [⟨trian.v0, trian.v1⟩, ⟨trian.v1, trian.v2⟩, ⟨trian.v2, trian.v0⟩]
  else
    [⟨trian.v2, trian.v1⟩, ⟨trian.v1, trian.v0⟩, ⟨trian.v0, trian.v2⟩]

/-- The clipper state `intersection_type()` reaches before its `switch`: `straight` built
from the segment and cut by the three lines in turn. -/
def clipped (k : Clipping_kernel α σ) (seg : Segment_2 α) (trian : Triangle_2 α) : σ :=
  (cut_lines k.oriented_side trian).foldl k.cut_right_off (k.straight seg)

/-- The member function `intersection_type()`, as the returned tag together with the
object after the call.  `none` is the failure of `CGAL_kernel_assertion_msg(false, ...)`
in the `default:` branch, taken in its checking form. -/
def Segment_2_Triangle_2_pair.intersection_type (k : Clipping_kernel α σ)
    (self : Segment_2_Triangle_2_pair α) :
    Option (Intersection_results × Segment_2_Triangle_2_pair α) :=
  if self._known then some (self._result, self)
  else
    let self := { self with _known := true }
    let straight := clipped k self._seg self._trian
    match k.current_state straight with
    | Straight_state.EMPTY =>
      some (Intersection_results.NO, { self with _result := Intersection_results.NO })
    | Straight_state.POINT =>
      some (Intersection_results.POINT,
        { self with
          _intersection_point := k.current_point straight
          _result := Intersection_results.POINT })
    | Straight_state.SEGMENT =>
      let seg := k.current_segment straight
      some (Intersection_results.SEGMENT,
        { self with
          _intersection_point := seg.source
          _other_point := seg.target
          _result := Intersection_results.SEGMENT })
    | Straight_state.OTHER => none

/-- The member function `intersection(Point_2<R> &result)`: the returned flag, the output
argument after the call, and the object after the call. -/
def Segment_2_Triangle_2_pair.intersection_Point_2 (k : Clipping_kernel α σ)
    (self : Segment_2_Triangle_2_pair α) (result : α) :
    Option (Bool × α × Segment_2_Triangle_2_pair α) :=
  let classified :=
    if self._known = false then (self.intersection_type k).map (fun r => r.2)
    else some self
  match classified with
  | none => none
  | some self =>
    if self._result ≠ Intersection_results.POINT then some (false, result, self)
    else some (true, self._intersection_point, self)

/-- The member function `intersection(Segment_2<R> &result)`: the returned flag, the
output argument after the call, and the object after the call. -/
def Segment_2_Triangle_2_pair.intersection_Segment_2 (k : Clipping_kernel α σ)
    (self : Segment_2_Triangle_2_pair α) (result : Segment_2 α) :
    Option (Bool × Segment_2 α × Segment_2_Triangle_2_pair α) :=
  let classified :=
    if self._known = false then (self.intersection_type k).map (fun r => r.2)
    else some self
  match classified with
  | none => none
  | some self =>
    if self._result ≠ Intersection_results.SEGMENT then some (false, result, self)
    else some (true, ⟨self._intersection_point, self._other_point⟩, self)

/-- The free function `do_intersect(const Segment_2<R>&, const Triangle_2<R>&)`. -/
def do_intersect (k : Clipping_kernel α σ) (d : Defaults α) (p1 : Segment_2 α)
    (p2 : Triangle_2 α) : Option Bool :=
  ((Segment_2_Triangle_2_pair.make d p1 p2).intersection_type k).map
    (fun r => decide (r.1 ≠ Intersection_results.NO))

/-- The free function `intersection(const Segment_2<R>&, const Triangle_2<R>&)`; the
locals `pt` and `iseg` start default-constructed. -/
def intersection (k : Clipping_kernel α σ) (d : Defaults α) (seg : Segment_2 α)
    (tr : Triangle_2 α) : Option (Object α) :=
  match (Segment_2_Triangle_2_pair.make d seg tr).intersection_type k with
  | none => none
  | some (Intersection_results.NO, _) => some Object.empty
  | some (Intersection_results.POINT, ispair) =>
    (ispair.intersection_Point_2 k d.point).map (fun r => Object.point r.2.1)
  | some (Intersection_results.SEGMENT, ispair) =>
    (ispair.intersection_Segment_2 k d.segment).map (fun r => Object.segment r.2.1)

/-- The constructor of the derived class `Triangle_2_Segment_2_pair(trian, seg)`, which
initialises its base with `(seg, trian)`. -/
def Triangle_2_Segment_2_pair.make (d : Defaults α) (trian : Triangle_2 α)
    (seg : Segment_2 α) : Segment_2_Triangle_2_pair α :=
  Segment_2_Triangle_2_pair.make d seg trian

/-- The free function `do_intersect(const Triangle_2<R>&, const Segment_2<R>&)`. -/
def do_intersect_Triangle_2_Segment_2 (k : Clipping_kernel α σ) (d : Defaults α)
    (p1 : Triangle_2 α) (p2 : Segment_2 α) : Option Bool :=
  ((Triangle_2_Segment_2_pair.make d p1 p2).intersection_type k).map
    (fun r => decide (r.1 ≠ Intersection_results.NO))

/-- The free function `intersection(const Triangle_2<R>&, const Segment_2<R>&)`. -/
def intersection_Triangle_2_Segment_2 (k : Clipping_kernel α σ) (d : Defaults α)
    (tr : Triangle_2 α) (seg : Segment_2 α) : Option (Object α) :=
  intersection k d seg tr

end Classifier

/-! ## A kernel and a clipper with exact rational coordinates -/

/-- A point of the plane with exact rational coordinates, compared coordinate-wise. -/
structure QPoint_2 where
  x : ℚ
  y : ℚ
deriving DecidableEq

/-- The orientation determinant of three points: positive when `r` lies to the left of
the directed line from `p` to `q`, zero when the three points are collinear. -/
def orientation_det (p q r : QPoint_2) : ℚ :=
  (q.x - p.x) * (r.y - p.y) - (q.y - p.y) * (r.x - p.x)

/-- Modelled from the spec: the kernel predicate `side_of_line(line, point)`
(`Line_2::oriented_side`), declared outside the sources at hand; a line through two
points "partitions the plane into positive/negative/on sides via the kernel's orientation
predicate", the positive side being the left of the directed line. -/
def oriented_side (l : Line_2 QPoint_2) (r : QPoint_2) : Oriented_side :=
  if 0 < orientation_det l.p l.q r then Oriented_side.ON_POSITIVE_SIDE
  else if orientation_det l.p l.q r < 0 then Oriented_side.ON_NEGATIVE_SIDE
  else Oriented_side.ON_ORIENTED_BOUNDARY

/-- Modelled from the spec: the state of the half-plane clipper `Straight_2_`, declared
outside the sources at hand: "a convex region represented as an intersection of
half-planes intersected with a base segment".  The region is the part of the base
segment with parameter in `[lo, hi]`, or empty. -/
structure Straight_2_ where
  base : Segment_2 QPoint_2
  extent : Option (ℚ × ℚ)

/-- The point of a segment at parameter `t` (`0` at the start, `1` at the end). -/
def Segment_2.point_at (s : Segment_2 QPoint_2) (t : ℚ) : QPoint_2 :=
  ⟨s.source.x + t * (s.target.x - s.source.x), s.source.y + t * (s.target.y - s.source.y)⟩

/-- Modelled from the spec: the clipper "constructed from a base Segment"; a zero-length
base segment is a point. -/
def Straight_2_.from_segment (s : Segment_2 QPoint_2) : Straight_2_ :=
  ⟨s, if s.source = s.target then some (0, 0) else some (0, 1)⟩

/-- Modelled from the spec: `cut_right_off(halfplane)`, which "intersects the current
region with" the inside of the half-plane: what lies to the right of the directed line
is cut off, what lies on it or to its left is kept. -/
def Straight_2_.cut_right_off (st : Straight_2_) (l : Line_2 QPoint_2) : Straight_2_ :=
  match st.extent with
  | none => st
  | some (lo, hi) =>
    let f0 := orientation_det l.p l.q st.base.source
    let f1 := orientation_det l.p l.q st.base.target
    if f0 = f1 then (if 0 ≤ f0 then st else ⟨st.base, none⟩)
    else if f0 < f1 then
      (if max lo (f0 / (f0 - f1)) ≤ hi then ⟨st.base, some (max lo (f0 / (f0 - f1)), hi)⟩
       else ⟨st.base, none⟩)
    else
      (if lo ≤ min hi (f0 / (f0 - f1)) then ⟨st.base, some (lo, min hi (f0 / (f0 - f1)))⟩
       else ⟨st.base, none⟩)

/-- Modelled from the spec: `current_state()`, which "reports its current extent as
empty / a point / a sub-segment". -/
def Straight_2_.current_state (st : Straight_2_) : Straight_state :=
  match st.extent with
  | none => Straight_state.EMPTY
  | some (lo, hi) => if lo = hi then Straight_state.POINT else Straight_state.SEGMENT

/-- Modelled from the spec: `current(out)` for a point. -/
def Straight_2_.current_point (st : Straight_2_) : QPoint_2 :=
  match st.extent with
  | none => st.base.source
  | some (lo, _) => st.base.point_at lo

/-- Modelled from the spec: `current(out)` for a segment. -/
def Straight_2_.current_segment (st : Straight_2_) : Segment_2 QPoint_2 :=
  match st.extent with
  | none => st.base
  | some (lo, hi) => ⟨st.base.point_at lo, st.base.point_at hi⟩

/-- The kernel and clipper over `QPoint_2`. -/
def rational_kernel : Clipping_kernel QPoint_2 Straight_2_ where
  oriented_side := oriented_side
  straight := Straight_2_.from_segment
  cut_right_off := Straight_2_.cut_right_off
  current_state := Straight_2_.current_state
  current_point := Straight_2_.current_point
  current_segment := Straight_2_.current_segment

/-- Default values over `QPoint_2` for concrete inputs. -/
def rational_defaults : Defaults QPoint_2 where
  result := Intersection_results.SEGMENT
  point := ⟨7, 7⟩
  segment := ⟨⟨7, 7⟩, ⟨7, 7⟩⟩

/-! ## Index arithmetic of circulators -/

theorem add_mod_ne_self {a j m : Nat} (ha : a < m) (hj0 : 0 < j) (hjm : j < m) :
    (a + j) % m ≠ a := by
  rcases Nat.lt_or_ge (a + j) m with h | h
  · rw [Nat.mod_eq_of_lt h]; omega
  · rw [Nat.mod_eq_sub_mod h, Nat.mod_eq_of_lt (by omega)]; omega

theorem mod_succ_mod (a k m : Nat) : ((a + k) % m + 1) % m = (a + (k + 1)) % m := by
  rw [← Nat.add_assoc]; exact Nat.mod_add_mod _ _ _

theorem add_self_mod {a m : Nat} (ha : a < m) : (a + m) % m = a := by
  rw [Nat.add_mod_right]; exact Nat.mod_eq_of_lt ha

/-- Reading a rotated duplicate-free sequence from the index that holds its original
first element is reading the sequence before rotation from its start. -/
theorem rotate_read_from_anchor {α : Type} (Q : List α) (r a : Nat) (hnd : Q.Nodup)
    (ha : a < Q.length) (hfound : (Q.rotate r)[a]? = Q[0]?) :
    ∀ t, t < Q.length → (Q.rotate r)[(a + t) % (Q.rotate r).length]? = Q[t]? := by
  have hm : 0 < Q.length := by omega
  have h0 : (a + r) % Q.length = 0 := by
    rw [List.getElem?_rotate ha] at hfound
    exact List.getElem?_inj (Nat.mod_lt _ hm) hnd hfound
  intro t ht
  rw [List.length_rotate, List.getElem?_rotate (Nat.mod_lt _ hm), Nat.mod_add_mod]
  have hidx : (a + t + r) % Q.length = t := by
    rw [Nat.add_right_comm, ← Nat.mod_add_mod, h0, Nat.zero_add, Nat.mod_eq_of_lt ht]
  rw [hidx]

/-! ## The anchor search -/

section MatcherLemmas

variable {α : Type} [DecidableEq α]

/-- The anchor search started at `j`, with no occurrence of the original's first vertex
before `j`, stops at the first index of the candidate that holds that vertex, or back at
index `0` when there is none. -/
theorem find_first_vertex_from (P Q : List α) (o : α) (hP : P[0]? = some o) :
    ∀ fuel j, j < Q.length → Q.length - j ≤ fuel → (∀ i, i < j → Q[i]? ≠ some o) →
      ∃ a, find_first_vertex P Q fuel j = some a ∧ a < Q.length ∧
        ((Q[a]? = some o ∧ ∀ i, i < a → Q[i]? ≠ some o) ∨
          (a = 0 ∧ ∀ i, i < Q.length → Q[i]? ≠ some o)) := by
  intro fuel
  induction fuel with
  | zero => intro j hj hf _; omega
  | succ fuel ih =>
    intro j hj hf hprev
    have hc : Q[j]? = some Q[j] := List.getElem?_eq_getElem hj
    unfold find_first_vertex
    simp only [hc, hP]
    by_cases hco : Q[j] = o
    · refine ⟨j, ?_, hj, Or.inl ⟨?_, hprev⟩⟩
      · simp [hco]
      · rw [hc, hco]
    · have hne : ∀ i, i < j + 1 → Q[i]? ≠ some o := by
        intro i hi
        rcases Nat.lt_succ_iff_lt_or_eq.mp hi with h | h
        · exact hprev i h
        · subst h; rw [hc]; intro h; exact hco (Option.some.inj h)
      by_cases hlast : j + 1 < Q.length
      · obtain ⟨a, ha, hlt, hspec⟩ := ih (j + 1) hlast (by omega) hne
        refine ⟨a, ?_, hlt, hspec⟩
        simp [hco, Nat.mod_eq_of_lt hlast, ha]
      · have hjm : j + 1 = Q.length := by omega
        refine ⟨0, ?_, by omega, Or.inr ⟨rfl, ?_⟩⟩
        · simp [hco, hjm]
        · intro i hi; exact hne i (by omega)

/-- The anchor search of both matchers, started at `new_first`. -/
theorem find_first_vertex_spec (P Q : List α) (o : α) (hP : P[0]? = some o)
    (hQ : 0 < Q.length) :
    ∃ a, find_first_vertex P Q Q.length 0 = some a ∧ a < Q.length ∧
      ((Q[a]? = some o ∧ ∀ i, i < a → Q[i]? ≠ some o) ∨
        (a = 0 ∧ ∀ i, i < Q.length → Q[i]? ≠ some o)) :=
  find_first_vertex_from P Q o hP Q.length 0 hQ (by omega) (fun i hi => absurd hi (by omega))

/-! ## The exact matcher -/

/-- The lock-step loop after `k` rounds, `k` below both lengths: it returns, and it
returns `true` exactly when the lengths agree and every later original vertex equals the
candidate vertex at the same offset from the anchor. -/
theorem polygons_are_equal_loop_spec (P Q : List α) (a : Nat) (ha : a < Q.length) :
    ∀ fuel k, k < P.length → k < Q.length → Q.length - k ≤ fuel →
      ∃ b, polygons_are_equal_loop P Q a fuel k ((a + k) % Q.length) = some b ∧
        (b = true ↔ P.length = Q.length ∧
          ∀ i, k < i → i < P.length → P[i]? = Q[(a + i) % Q.length]?) := by
  intro fuel
  induction fuel with
  | zero => intro k _ hk hf; omega
  | succ fuel ih =>
    intro k hkn hkm hf
    have hn : 0 < P.length := by omega
    have hm : 0 < Q.length := by omega
    obtain ⟨o, ho⟩ : ∃ o, P[(k + 1) % P.length]? = some o :=
      ⟨_, List.getElem?_eq_getElem (Nat.mod_lt _ hn)⟩
    obtain ⟨c, hc⟩ : ∃ c, Q[(a + (k + 1)) % Q.length]? = some c :=
      ⟨_, List.getElem?_eq_getElem (Nat.mod_lt _ hm)⟩
    simp only [polygons_are_equal_loop, mod_succ_mod, ho, hc]
    by_cases hn1 : k + 1 < P.length
    · rw [Nat.mod_eq_of_lt hn1] at ho
      rw [Nat.mod_eq_of_lt hn1]
      by_cases hm1 : k + 1 < Q.length
      · have hna : (a + (k + 1)) % Q.length ≠ a := add_mod_ne_self ha (by omega) hm1
        by_cases hoc : o = c
        · obtain ⟨b, hb, hiff⟩ := ih (k + 1) hn1 hm1 (by omega)
          refine ⟨b, ?_, ?_⟩
          · simp [hoc, hna, hb]
          · rw [hiff]
            constructor
            · rintro ⟨hlen, hall⟩
              refine ⟨hlen, fun i hki hin => ?_⟩
              rcases Nat.eq_or_lt_of_le (Nat.succ_le_of_lt hki) with h | h
              · rw [← h, Nat.succ_eq_add_one, ho, hc, hoc]
              · exact hall i h hin
            · rintro ⟨hlen, hall⟩
              exact ⟨hlen, fun i hki hin => hall i (by omega) hin⟩
        · refine ⟨false, ?_, ?_⟩
          · simp [hoc]
          · constructor
            · intro h; cases h
            · rintro ⟨_, hall⟩
              have := hall (k + 1) (by omega) hn1
              rw [ho, hc] at this
              exact absurd (Option.some.inj this) hoc
      · have hkm1 : k + 1 = Q.length := by omega
        have hwrap : (a + (k + 1)) % Q.length = a := by rw [hkm1]; exact add_self_mod ha
        refine ⟨false, ?_, ?_⟩
        · simp [hwrap]
        · constructor
          · intro h; cases h
          · rintro ⟨hlen, _⟩; omega
    · have hkn1 : k + 1 = P.length := by omega
      have hon : (k + 1) % P.length = 0 := by rw [hkn1]; exact Nat.mod_self _
      by_cases hm1 : k + 1 < Q.length
      · have hna : (a + (k + 1)) % Q.length ≠ a := add_mod_ne_self ha (by omega) hm1
        refine ⟨false, ?_, ?_⟩
        · simp [hon, hna]
        · constructor
          · intro h; cases h
          · rintro ⟨hlen, _⟩; omega
      · have hkm1 : k + 1 = Q.length := by omega
        have hwrap : (a + (k + 1)) % Q.length = a := by rw [hkm1]; exact add_self_mod ha
        refine ⟨true, ?_, ?_⟩
        · simp [hon, hwrap]
        · simp only [true_iff]
          exact ⟨by omega, fun i hki hin => absurd hin (by omega)⟩

/-- The exact matcher on non-empty sequences returns a verdict.  With `a` the index
where the anchor search stopped (the first occurrence of the original's first vertex, or
index `0` when the candidate has none), the verdict is `true` exactly when the lengths
agree and every original vertex after the first equals the candidate vertex at the same
offset from `a`. -/
theorem polygons_are_equal_spec (P Q : List α) (hP : P ≠ []) (hQ : Q ≠ []) :
    ∃ a b, find_first_vertex P Q Q.length 0 = some a ∧ a < Q.length ∧
      ((Q[a]? = P[0]? ∧ ∀ i, i < a → Q[i]? ≠ P[0]?) ∨
        (a = 0 ∧ ∀ i, i < Q.length → Q[i]? ≠ P[0]?)) ∧
      polygons_are_equal P Q = some b ∧
      (b = true ↔ P.length = Q.length ∧
        ∀ i, 0 < i → i < P.length → P[i]? = Q[(a + i) % Q.length]?) := by
  have hn : 0 < P.length := List.length_pos.mpr hP
  have hm : 0 < Q.length := List.length_pos.mpr hQ
  have hP0 : P[0]? = some P[0] := List.getElem?_eq_getElem hn
  obtain ⟨a, hfind, ha, hanchor⟩ := find_first_vertex_spec P Q P[0] hP0 hm
  obtain ⟨b, hb, hiff⟩ := polygons_are_equal_loop_spec P Q a ha Q.length 0 hn hm (by omega)
  refine ⟨a, b, hfind, ha, ?_, ?_, hiff⟩
  · rw [hP0]; exact hanchor
  · rw [Nat.add_zero, Nat.mod_eq_of_lt ha] at hb
    simp only [polygons_are_equal, hfind, hb]

/-! ## The Steiner-tolerant matcher -/

/-- Offsets that grow from each index to the next grow along every pair of indices. -/
theorem offsets_increasing (k : Nat → Nat) (n : Nat)
    (hstep : ∀ j, j + 1 < n → k j < k (j + 1)) :
    ∀ i j, i < j → j < n → k i < k j := by
  intro i j hij
  induction j with
  | zero => omega
  | succ j ih =>
    intro hjn
    rcases Nat.eq_or_lt_of_le (Nat.le_of_lt_succ hij) with h | h
    · subst h; exact hstep i hjn
    · exact Nat.lt_trans (ih h (by omega)) (hstep j hjn)

/-- Increasing offsets dominate their index. -/
theorem index_le_offset (k : Nat → Nat) (n : Nat)
    (hstep : ∀ j, j + 1 < n → k j < k (j + 1)) :
    ∀ j, j < n → j ≤ k j := by
  intro j
  induction j with
  | zero => intro _; omega
  | succ j ih =>
    intro hjn
    have h1 := ih (by omega)
    have h2 := hstep j hjn
    omega

/-- The main loop of the Steiner-tolerant matcher, entered with the original cursor at
`oc > 0` and the candidate cursor `t` steps after the anchor: when it returns `true`,
the original vertices from `oc` on occur in the candidate at increasing offsets from
the anchor, the first of them at offset `t` or later. -/
theorem polygons_w_steiner_are_equal_loop_sound (K : Kernel α) (P Q : List α) (a : Nat)
    (ha : a < Q.length) :
    ∀ fuel prev oc t, 0 < oc → oc < P.length → t < Q.length →
      polygons_w_steiner_are_equal_loop K P Q a fuel prev oc ((a + t) % Q.length)
        = some true →
      ∃ k : Nat → Nat, t ≤ k oc ∧
        (∀ j, oc ≤ j → j + 1 < P.length → k j < k (j + 1)) ∧
        (∀ j, oc ≤ j → j < P.length → k j < Q.length) ∧
        (∀ j, oc ≤ j → j < P.length → P[j]? = Q[(a + k j) % Q.length]?) := by
  intro fuel
  induction fuel with
  | zero => intro prev oc t _ _ _ h; simp [polygons_w_steiner_are_equal_loop] at h
  | succ fuel ih =>
    intro prev oc t hoc hocn ht h
    have hm : 0 < Q.length := by omega
    obtain ⟨c, hc⟩ : ∃ c, Q[(a + t) % Q.length]? = some c :=
      ⟨_, List.getElem?_eq_getElem (Nat.mod_lt _ hm)⟩
    have ho : P[oc]? = some P[oc] := List.getElem?_eq_getElem hocn
    have hoc0 : oc ≠ 0 := by omega
    have hwrap : t + 1 = Q.length → (a + (t + 1)) % Q.length = a := by
      intro e; rw [e]; exact add_self_mod ha
    simp only [polygons_w_steiner_are_equal_loop, mod_succ_mod, hc, ho] at h
    by_cases hco : c = P[oc]
    · simp only [hco, if_true] at h
      by_cases hn1 : oc + 1 < P.length
      · rw [Nat.mod_eq_of_lt hn1] at h
        by_cases hm1 : t + 1 < Q.length
        · have hna : (a + (t + 1)) % Q.length ≠ a := add_mod_ne_self ha (by omega) hm1
          simp only [hna, not_false_eq_true, and_true, Nat.succ_ne_zero, ne_eq, if_true] at h
          obtain ⟨k, hk0, hkstep, hkbound, hkmatch⟩ := ih _ (oc + 1) (t + 1) (by omega) hn1 hm1 h
          refine ⟨fun j => if j = oc then t else k j, by simp, ?_, ?_, ?_⟩
          · intro j hj hjn
            by_cases hjo : j = oc
            · subst hjo; simp; omega
            · have := hkstep j (by omega) hjn
              simp only [hjo, if_false]
              rw [if_neg (by omega)]; exact this
          · intro j hj hjn
            by_cases hjo : j = oc
            · subst hjo; simp; exact ht
            · simp only [hjo, if_false]; exact hkbound j (by omega) hjn
          · intro j hj hjn
            by_cases hjo : j = oc
            · subst hjo; simp only [if_true]; rw [ho, hc, hco]
            · simp only [hjo, if_false]; exact hkmatch j (by omega) hjn
        · simp [hwrap (by omega)] at h
      · have hon : (oc + 1) % P.length = 0 := by
          have : oc + 1 = P.length := by omega
          rw [this]; exact Nat.mod_self _
        refine ⟨fun _ => t, Nat.le_refl _, ?_, ?_, ?_⟩
        · intro j hj hjn; omega
        · intro j _ _; exact ht
        · intro j hj hjn
          have : j = oc := by omega
          subst this; rw [ho, hc, hco]
    · simp only [hco, if_false] at h
      by_cases hcol : K.collinear prev c P[oc] = false
      · simp [hcol] at h
      · by_cases hord : K.collinear_are_ordered_along_line prev c P[oc] = false
        · simp [hcol, hord] at h
        · simp only [hcol, hord, if_false] at h
          by_cases hm1 : t + 1 < Q.length
          · have hna : (a + (t + 1)) % Q.length ≠ a := add_mod_ne_self ha (by omega) hm1
            simp only [hna, hoc0, not_false_eq_true, and_true, ne_eq, if_true] at h
            obtain ⟨k, hk0, hkstep, hkbound, hkmatch⟩ := ih _ oc (t + 1) hoc hocn hm1 h
            exact ⟨k, by omega, hkstep, hkbound, hkmatch⟩
          · simp [hwrap (by omega), hoc0] at h

/-- The main loop of the Steiner-tolerant matcher as the matcher enters it (original
cursor at its start, candidate cursor at an anchor that is not the candidate's first
position): when it returns `true`, every original vertex occurs in the candidate at
increasing offsets from the anchor, the first at offset `0`. -/
theorem polygons_w_steiner_are_equal_loop_sound_first (K : Kernel α) (P Q : List α)
    (a : Nat) (ha : a < Q.length) (ha0 : a ≠ 0) (hanchor : Q[a]? = P[0]?)
    (hn : 0 < P.length) (fuel : Nat) (prev : α)
    (h : polygons_w_steiner_are_equal_loop K P Q a fuel prev 0 a = some true) :
    ∃ k : Nat → Nat, k 0 = 0 ∧
      (∀ j, j + 1 < P.length → k j < k (j + 1)) ∧
      (∀ j, j < P.length → k j < Q.length) ∧
      (∀ j, j < P.length → P[j]? = Q[(a + k j) % Q.length]?) := by
  cases fuel with
  | zero => simp [polygons_w_steiner_are_equal_loop] at h
  | succ fuel =>
    have ho : P[0]? = some P[0] := List.getElem?_eq_getElem hn
    have hc : Q[a]? = some P[0] := hanchor.trans ho
    have hm1 : 1 < Q.length := by omega
    have hna : (a + 1) % Q.length ≠ a := add_mod_ne_self ha (by omega) hm1
    simp only [polygons_w_steiner_are_equal_loop, hc, ho, if_true, Nat.zero_add] at h
    by_cases hn1 : 1 < P.length
    · rw [Nat.mod_eq_of_lt hn1] at h
      simp only [hna, not_false_eq_true, and_true, Nat.succ_ne_zero, ne_eq, if_true] at h
      obtain ⟨k, _, hkstep, hkbound, hkmatch⟩ :=
        polygons_w_steiner_are_equal_loop_sound K P Q a ha fuel _ 1 1 (by omega) hn1 hm1 h
      refine ⟨fun j => if j = 0 then 0 else k j, by simp, ?_, ?_, ?_⟩
      · intro j hjn
        by_cases hj0 : j = 0
        · subst hj0; simp; omega
        · simp only [hj0, if_false, Nat.succ_ne_zero]
          exact hkstep j (by omega) hjn
      · intro j hjn
        by_cases hj0 : j = 0
        · subst hj0; simp; omega
        · simp only [hj0, if_false]; exact hkbound j (by omega) hjn
      · intro j hjn
        by_cases hj0 : j = 0
        · subst hj0; simp only [if_true, Nat.add_zero, Nat.mod_eq_of_lt ha]; rw [ho, hc]
        · simp only [hj0, if_false]; exact hkmatch j (by omega) hjn
    · have hlen : P.length = 1 := by omega
      simp [hlen, hna] at h

/-- The main loop of the Steiner-tolerant matcher returns: every round moves the
candidate cursor one step further from the anchor, and the loop is left when that cursor
is back at the anchor. -/
theorem polygons_w_steiner_are_equal_loop_returns (K : Kernel α) (P Q : List α) (a : Nat)
    (ha : a < Q.length) :
    ∀ fuel prev oc t, oc < P.length → t < Q.length → Q.length - t ≤ fuel →
      ∃ b, polygons_w_steiner_are_equal_loop K P Q a fuel prev oc ((a + t) % Q.length)
        = some b := by
  intro fuel
  induction fuel with
  | zero => intro _ _ t _ ht hf; omega
  | succ fuel ih =>
    intro prev oc t hocn ht hf
    have hm : 0 < Q.length := by omega
    have hn : 0 < P.length := by omega
    obtain ⟨c, hc⟩ : ∃ c, Q[(a + t) % Q.length]? = some c :=
      ⟨_, List.getElem?_eq_getElem (Nat.mod_lt _ hm)⟩
    have ho : P[oc]? = some P[oc] := List.getElem?_eq_getElem hocn
    have hwrap : ¬ t + 1 < Q.length → (a + (t + 1)) % Q.length = a := by
      intro e
      have : t + 1 = Q.length := by omega
      rw [this]; exact add_self_mod ha
    simp only [polygons_w_steiner_are_equal_loop, mod_succ_mod, hc, ho]
    by_cases hm1 : t + 1 < Q.length
    · obtain ⟨b1, hb1⟩ := ih c ((oc + 1) % P.length) (t + 1) (Nat.mod_lt _ hn) hm1 (by omega)
      obtain ⟨b2, hb2⟩ := ih c oc (t + 1) hocn hm1 (by omega)
      rw [hb1, hb2]
      split
      · split
        · exact ⟨_, rfl⟩
        · exact ⟨_, rfl⟩
      · split
        · exact ⟨_, rfl⟩
        · split
          · exact ⟨_, rfl⟩
          · split
            · exact ⟨_, rfl⟩
            · exact ⟨_, rfl⟩
    · simp only [hwrap hm1, ne_eq, not_true_eq_false, and_false, if_false]
      split
      · exact ⟨_, rfl⟩
      · split
        · exact ⟨_, rfl⟩
        · split
          · exact ⟨_, rfl⟩
          · exact ⟨_, rfl⟩

/-- The Steiner-tolerant matcher returns a verdict on non-empty sequences. -/
theorem polygons_w_steiner_are_equal_returns (K : Kernel α) (P Q : List α)
    (hP : P ≠ []) (hQ : Q ≠ []) : ∃ b, polygons_w_steiner_are_equal K P Q = some b := by
  have hn : 0 < P.length := List.length_pos.mpr hP
  have hm : 0 < Q.length := List.length_pos.mpr hQ
  obtain ⟨a, hfind, ha, _⟩ :=
    find_first_vertex_spec P Q P[0] (List.getElem?_eq_getElem hn) hm
  have hc : Q[a]? = some Q[a] := List.getElem?_eq_getElem ha
  simp only [polygons_w_steiner_are_equal, hfind, hc]
  by_cases ha0 : a = 0
  · exact ⟨false, by simp [ha0]⟩
  · obtain ⟨b, hb⟩ :=
      polygons_w_steiner_are_equal_loop_returns K P Q a ha Q.length Q[a] 0 0 hn hm (by omega)
    rw [Nat.add_zero, Nat.mod_eq_of_lt ha] at hb
    exact ⟨b, by simp [ha0, hb]⟩

/-- When the Steiner-tolerant matcher returns `true`, the anchor search stopped at the
first occurrence `a` of the original's first vertex, and the original's vertices occur in
the candidate at increasing offsets from `a`, the first at offset `0`. -/
theorem polygons_w_steiner_are_equal_offsets (K : Kernel α) (P Q : List α)
    (hP : P ≠ []) (hQ : Q ≠ []) (h : polygons_w_steiner_are_equal K P Q = some true) :
    ∃ a, a < Q.length ∧ Q[a]? = P[0]? ∧ (∀ i, i < a → Q[i]? ≠ P[0]?) ∧
      ∃ k : Nat → Nat, k 0 = 0 ∧
        (∀ j, j + 1 < P.length → k j < k (j + 1)) ∧
        (∀ j, j < P.length → k j < Q.length) ∧
        (∀ j, j < P.length → P[j]? = Q[(a + k j) % Q.length]?) := by
  have hn : 0 < P.length := List.length_pos.mpr hP
  have hm : 0 < Q.length := List.length_pos.mpr hQ
  have hP0 : P[0]? = some P[0] := List.getElem?_eq_getElem hn
  obtain ⟨a, hfind, ha, hanchor⟩ := find_first_vertex_spec P Q P[0] hP0 hm
  have hc : Q[a]? = some Q[a] := List.getElem?_eq_getElem ha
  simp only [polygons_w_steiner_are_equal, hfind, hc] at h
  by_cases ha0 : a = 0
  · simp [ha0] at h
  · simp only [ha0, if_false] at h
    rcases hanchor with ⟨hfound, hfirst⟩ | ⟨h0, _⟩
    · rw [← hP0] at hfound hfirst
      exact ⟨a, ha, hfound, hfirst,
        polygons_w_steiner_are_equal_loop_sound_first K P Q a ha ha0 hfound hn _ _ h⟩
    · exact absurd h0 ha0

/-! ### One extra vertex on an edge other than the closing edge -/

/-- The main loop after the extra vertex: the candidate cursor runs one step ahead of the
original cursor, every remaining vertex matches, and both cursors reach their starts in
the same round. -/
theorem polygons_w_steiner_are_equal_loop_after_extra (K : Kernel α) (P Q : List α)
    (a i : Nat) (ha : a < Q.length) (hm : Q.length = P.length + 1)
    (htail : ∀ t, i < t → t < P.length → Q[(a + (t + 1)) % Q.length]? = P[t]?) :
    ∀ fuel prev oc, i < oc → oc < P.length → P.length - oc ≤ fuel →
      polygons_w_steiner_are_equal_loop K P Q a fuel prev oc ((a + (oc + 1)) % Q.length)
        = some true := by
  intro fuel
  induction fuel with
  | zero => intro _ oc _ hocn hf; omega
  | succ fuel ih =>
    intro prev oc hioc hocn hf
    have ho : P[oc]? = some P[oc] := List.getElem?_eq_getElem hocn
    have hc : Q[(a + (oc + 1)) % Q.length]? = some P[oc] := (htail oc hioc hocn).trans ho
    simp only [polygons_w_steiner_are_equal_loop, mod_succ_mod, hc, ho, if_true]
    by_cases hn1 : oc + 1 < P.length
    · have hna : (a + (oc + 1 + 1)) % Q.length ≠ a := add_mod_ne_self ha (by omega) (by omega)
      rw [Nat.mod_eq_of_lt hn1]
      simp only [hna, not_false_eq_true, and_true, Nat.succ_ne_zero, ne_eq, if_true]
      exact ih _ (oc + 1) (by omega) hn1 (by omega)
    · have hon : (oc + 1) % P.length = 0 := by
        have : oc + 1 = P.length := by omega
        rw [this]; exact Nat.mod_self _
      have hwrap : (a + (oc + 1 + 1)) % Q.length = a := by
        have : oc + 1 + 1 = Q.length := by omega
        rw [this]; exact add_self_mod ha
      simp [hon, hwrap]

/-- The main loop up to and including the extra vertex `M`, which sits between the
original vertices `u = P[i]` and `v = P[i + 1]`, is collinear with them and ordered
between them: the loop returns `true`. -/
theorem polygons_w_steiner_are_equal_loop_until_extra (K : Kernel α) (P Q : List α)
    (a i : Nat) (M u v : α) (ha : a < Q.length) (hm : Q.length = P.length + 1)
    (hi : i + 1 < P.length) (hu : P[i]? = some u) (hv : P[i + 1]? = some v)
    (hMv : M ≠ v) (hcol : K.collinear u M v = true)
    (hord : K.collinear_are_ordered_along_line u M v = true)
    (hhead : ∀ t, t ≤ i → Q[(a + t) % Q.length]? = P[t]?)
    (hmid : Q[(a + (i + 1)) % Q.length]? = some M)
    (htail : ∀ t, i < t → t < P.length → Q[(a + (t + 1)) % Q.length]? = P[t]?) :
    ∀ fuel prev oc, oc ≤ i + 1 → (oc = i + 1 → prev = u) → Q.length - oc ≤ fuel →
      polygons_w_steiner_are_equal_loop K P Q a fuel prev oc ((a + oc) % Q.length)
        = some true := by
  intro fuel
  induction fuel with
  | zero => intro _ oc hoc _ hf; omega
  | succ fuel ih =>
    intro prev oc hoc hprev hf
    by_cases hle : oc ≤ i
    · have hocn : oc < P.length := by omega
      have ho : P[oc]? = some P[oc] := List.getElem?_eq_getElem hocn
      have hc : Q[(a + oc) % Q.length]? = some P[oc] := (hhead oc hle).trans ho
      have hna : (a + (oc + 1)) % Q.length ≠ a := add_mod_ne_self ha (by omega) (by omega)
      simp only [polygons_w_steiner_are_equal_loop, mod_succ_mod, hc, ho, if_true]
      rw [Nat.mod_eq_of_lt (by omega : oc + 1 < P.length)]
      simp only [hna, not_false_eq_true, and_true, Nat.succ_ne_zero, ne_eq, if_true]
      refine ih _ (oc + 1) (by omega) ?_ (by omega)
      intro e
      have hoi : oc = i := by omega
      subst hoi
      exact Option.some.inj (ho.symm.trans hu)
    · have hoi : oc = i + 1 := by omega
      subst hoi
      have hpu : prev = u := hprev rfl
      subst hpu
      have hna : (a + (i + 1 + 1)) % Q.length ≠ a := add_mod_ne_self ha (by omega) (by omega)
      simp only [polygons_w_steiner_are_equal_loop, mod_succ_mod, hmid, hv, hMv, if_false,
        hcol, hord, hna, not_false_eq_true, and_true, Nat.succ_ne_zero, ne_eq, if_true,
        Bool.true_eq_false]
      exact polygons_w_steiner_are_equal_loop_after_extra K P Q a i ha hm htail fuel M
        (i + 1) (by omega) hi (by omega)

/-- Steiner tolerance on the edges other than the closing edge: let `P` have pairwise
distinct vertices and let `M`, not a vertex of `P`, be collinear with and ordered between
`P[i]` and `P[i + 1]`, where `i + 1 < n`.  For `P` with `M` inserted between `P[i]` and
`P[i + 1]`, presented in a rotation whose first vertex is not `P[0]`, the Steiner-tolerant
matcher returns `true`. -/
theorem polygons_w_steiner_are_equal_inner_edge (K : Kernel α) (P : List α) (M u v : α)
    (i r : Nat) (hnd : P.Nodup) (hM : M ∉ P) (hi : i + 1 < P.length)
    (hu : P[i]? = some u) (hv : P[i + 1]? = some v)
    (hcol : K.collinear u M v = true)
    (hord : K.collinear_are_ordered_along_line u M v = true)
    (hstart : ((P.take (i + 1) ++ M :: P.drop (i + 1)).rotate r)[0]? ≠ P[0]?) :
    polygons_w_steiner_are_equal K P ((P.take (i + 1) ++ M :: P.drop (i + 1)).rotate r)
      = some true := by
  have hn : 0 < P.length := by omega
  have hP0 : P[0]? = some P[0] := List.getElem?_eq_getElem hn
  have htake : (P.take (i + 1)).length = i + 1 := by
    rw [List.length_take]; omega
  -- the candidate before rotation
  have hlen' : (P.take (i + 1) ++ M :: P.drop (i + 1)).length = P.length + 1 := by
    rw [List.length_append, List.length_cons, List.length_drop, htake]; omega
  have hhead' : ∀ t, t ≤ i → (P.take (i + 1) ++ M :: P.drop (i + 1))[t]? = P[t]? := by
    intro t ht
    rw [List.getElem?_append_left (by omega), List.getElem?_take_of_lt (by omega)]
  have hmid' : (P.take (i + 1) ++ M :: P.drop (i + 1))[i + 1]? = some M := by
    rw [List.getElem?_append_right (by omega), htake, Nat.sub_self]
    exact List.getElem?_cons_zero
  have htail' : ∀ t, i < t → t < P.length →
      (P.take (i + 1) ++ M :: P.drop (i + 1))[t + 1]? = P[t]? := by
    intro t ht htn
    rw [List.getElem?_append_right (by omega), htake]
    have e1 : t + 1 - (i + 1) = (t - (i + 1)) + 1 := by omega
    rw [e1, List.getElem?_cons_succ, List.getElem?_drop]
    congr 1; omega
  have hnd' : (P.take (i + 1) ++ M :: P.drop (i + 1)).Nodup := by
    have hperm : List.Perm (P.take (i + 1) ++ M :: P.drop (i + 1))
        (M :: (P.take (i + 1) ++ P.drop (i + 1))) := List.perm_middle
    rw [hperm.nodup_iff, List.take_append_drop]
    exact List.nodup_cons.mpr ⟨hM, hnd⟩
  generalize hQ' : P.take (i + 1) ++ M :: P.drop (i + 1) = Q' at *
  have hm' : 0 < Q'.length := by omega
  have hQne : Q'.rotate r ≠ [] := fun h => by
    have := List.rotate_eq_nil_iff.mp h
    rw [this] at hm'; exact absurd hm' (by simp)
  have hmQ : 0 < (Q'.rotate r).length := List.length_pos.mpr hQne
  obtain ⟨a, hfind, ha, hanchor⟩ := find_first_vertex_spec P (Q'.rotate r) P[0] hP0 hmQ
  -- the anchor is found, and not at the candidate's first position
  have hmemQ : P[0] ∈ Q'.rotate r :=
    List.mem_rotate.mpr (List.getElem?_mem ((hhead' 0 (Nat.zero_le _)).trans hP0))
  have hfound : (Q'.rotate r)[a]? = some P[0] := by
    rcases hanchor with ⟨h, _⟩ | ⟨_, hnone⟩
    · exact h
    · exfalso
      obtain ⟨j, hj⟩ := List.getElem?_of_mem hmemQ
      exact hnone j (List.getElem?_eq_some.mp hj).1 hj
  have ha0 : a ≠ 0 := by
    intro e; subst e; exact hstart (hfound.trans hP0.symm)
  have hQlen : (Q'.rotate r).length = Q'.length := List.length_rotate _ _
  rw [hQlen] at ha
  -- reading the candidate from the anchor is reading it before rotation from its start
  have h0 : (a + r) % Q'.length = 0 := by
    have e : Q'[(a + r) % Q'.length]? = Q'[0]? := by
      rw [← List.getElem?_rotate ha, hfound, hhead' 0 (Nat.zero_le _), hP0]
    exact List.getElem?_inj (Nat.mod_lt _ hm') hnd' e
  have hread : ∀ t, t < Q'.length →
      (Q'.rotate r)[(a + t) % (Q'.rotate r).length]? = Q'[t]? := by
    intro t ht
    rw [hQlen, List.getElem?_rotate (Nat.mod_lt _ hm'), Nat.mod_add_mod]
    have hidx : (a + t + r) % Q'.length = t := by
      rw [Nat.add_right_comm, ← Nat.mod_add_mod, h0, Nat.zero_add, Nat.mod_eq_of_lt ht]
    rw [hidx]
  have hMv : M ≠ v := fun e => hM (e ▸ List.getElem?_mem hv)
  have hloop := polygons_w_steiner_are_equal_loop_until_extra K P (Q'.rotate r) a i M u v
    (by rw [hQlen]; exact ha) (by rw [hQlen, hlen']) hi hu hv hMv hcol hord
    (fun t ht => (hread t (by omega)).trans (hhead' t ht))
    ((hread (i + 1) (by omega)).trans hmid')
    (fun t ht htn => (hread (t + 1) (by omega)).trans (htail' t ht htn))
    (Q'.rotate r).length P[0] 0 (by omega) (by omega) (by omega)
  rw [Nat.add_zero, hQlen, Nat.mod_eq_of_lt ha] at hloop
  rw [hQlen] at hfind
  simp only [polygons_w_steiner_are_equal, hQlen, hfind, ha0, if_false, hfound]
  exact hloop

/-! ### Rejected steps of the main loop -/

/-- A round of the main loop whose candidate vertex differs from the pending original
vertex returns `false` at once when either kernel test fails. -/
theorem polygons_w_steiner_are_equal_loop_reject (K : Kernel α) (P Q : List α)
    (a fuel oc nc : Nat) (prev c o : α) (hc : Q[nc]? = some c) (ho : P[oc]? = some o)
    (hne : c ≠ o)
    (hfail : K.collinear prev c o = false ∨
      K.collinear_are_ordered_along_line prev c o = false) :
    polygons_w_steiner_are_equal_loop K P Q a (fuel + 1) prev oc nc = some false := by
  simp only [polygons_w_steiner_are_equal_loop, hc, ho, hne, if_false]
  rcases hfail with h | h
  · simp [h]
  · by_cases hcol : K.collinear prev c o = false
    · simp [hcol]
    · simp [hcol, h]

/-- A round of the main loop whose candidate vertex differs from the pending original
vertex and passes both kernel tests moves the candidate cursor alone and records the
candidate vertex as `prev_pt`, as long as neither cursor is at its start. -/
theorem polygons_w_steiner_are_equal_loop_skip (K : Kernel α) (P Q : List α)
    (a fuel oc nc : Nat) (prev c o : α) (hc : Q[nc]? = some c) (ho : P[oc]? = some o)
    (hne : c ≠ o) (hcol : K.collinear prev c o = true)
    (hord : K.collinear_are_ordered_along_line prev c o = true)
    (hoc : oc ≠ 0) (hna : (nc + 1) % Q.length ≠ a) :
    polygons_w_steiner_are_equal_loop K P Q a (fuel + 1) prev oc nc =
      polygons_w_steiner_are_equal_loop K P Q a fuel c oc ((nc + 1) % Q.length) := by
  simp only [polygons_w_steiner_are_equal_loop, hc, ho, hne, if_false, hcol, hord, hoc,
    hna, ne_eq, not_false_eq_true, and_self, if_true, Bool.true_eq_false]

/-- Two consecutive candidate vertices `X`, `Y`, both different from the pending original
vertex `V`: the loop returns `false` when `Y` is not ordered between `X` and `V`, because
the second round tests `Y` against `prev_pt = X`. -/
theorem polygons_w_steiner_are_equal_loop_two_extras (K : Kernel α) (P Q : List α)
    (a fuel oc t : Nat) (prev X Y V : α) (ha : a < Q.length) (hoc : oc ≠ 0)
    (ht : t + 1 < Q.length)
    (hX : Q[(a + t) % Q.length]? = some X) (hY : Q[(a + (t + 1)) % Q.length]? = some Y)
    (hV : P[oc]? = some V) (hXV : X ≠ V) (hYV : Y ≠ V)
    (hord : K.collinear_are_ordered_along_line X Y V = false) :
    polygons_w_steiner_are_equal_loop K P Q a (fuel + 2) prev oc ((a + t) % Q.length)
      = some false := by
  by_cases hfail : K.collinear prev X V = false ∨
      K.collinear_are_ordered_along_line prev X V = false
  · exact polygons_w_steiner_are_equal_loop_reject K P Q a (fuel + 1) oc _ prev X V hX hV
      hXV hfail
  · have hcol : K.collinear prev X V = true := by
      cases h : K.collinear prev X V
      · exact absurd (Or.inl h) hfail
      · rfl
    have hordX : K.collinear_are_ordered_along_line prev X V = true := by
      cases h : K.collinear_are_ordered_along_line prev X V
      · exact absurd (Or.inr h) hfail
      · rfl
    have hna : ((a + t) % Q.length + 1) % Q.length ≠ a := by
      rw [mod_succ_mod]; exact add_mod_ne_self ha (by omega) ht
    rw [show fuel + 2 = (fuel + 1) + 1 from rfl,
      polygons_w_steiner_are_equal_loop_skip K P Q a (fuel + 1) oc _ prev X V hX hV hXV
        hcol hordX hoc hna, mod_succ_mod]
    exact polygons_w_steiner_are_equal_loop_reject K P Q a fuel oc _ X Y V hY hV hYV
      (Or.inr hord)

/-- The main loop consumes a matched prefix: when the first `j` original vertices equal
the candidate vertices at the same offsets from the anchor, the loop entered at the
anchor continues, `j` rounds later, with the original cursor at `j`. -/
theorem polygons_w_steiner_are_equal_loop_matched_run (K : Kernel α) (P Q : List α)
    (a : Nat) (ha : a < Q.length) :
    ∀ j, j < P.length → j < Q.length →
      (∀ t, t < j → Q[(a + t) % Q.length]? = P[t]?) →
      ∀ fuel prev, j ≤ fuel →
        ∃ prev', polygons_w_steiner_are_equal_loop K P Q a fuel prev 0 a =
          polygons_w_steiner_are_equal_loop K P Q a (fuel - j) prev' j
            ((a + j) % Q.length) := by
  intro j
  induction j with
  | zero =>
    intro _ _ _ fuel prev _
    exact ⟨prev, by rw [Nat.add_zero, Nat.mod_eq_of_lt ha, Nat.sub_zero]⟩
  | succ j ih =>
    intro hjn hjm hmatch fuel prev hfuel
    obtain ⟨prev', hprev'⟩ :=
      ih (by omega) (by omega) (fun t ht => hmatch t (by omega)) fuel prev (by omega)
    obtain ⟨f, hf⟩ : ∃ f, fuel - j = f + 1 := ⟨fuel - j - 1, by omega⟩
    have hf' : fuel - (j + 1) = f := by omega
    have ho : P[j]? = some P[j] := List.getElem?_eq_getElem (by omega)
    have hc : Q[(a + j) % Q.length]? = some P[j] := (hmatch j (by omega)).trans ho
    have hna : (a + (j + 1)) % Q.length ≠ a := add_mod_ne_self ha (by omega) hjm
    refine ⟨P[j], ?_⟩
    rw [hprev', hf, hf']
    simp only [polygons_w_steiner_are_equal_loop, mod_succ_mod, hc, ho, if_true]
    rw [Nat.mod_eq_of_lt hjn]
    simp only [hna, not_false_eq_true, and_true, Nat.succ_ne_zero, ne_eq, if_true]

end MatcherLemmas

/-! ## Claims about the exact matcher -/

section ExactClaims

variable {α : Type} [DecidableEq α]

/-- C1: the claim says that `polygons_are_equal` fails whenever no candidate vertex
equals the original's first vertex.  The code has no such test: with the original
`[A, B, C]` and the candidate `[X, B, C]`, and with `[A]` against `[X]`, it returns
`true`. -/
theorem polygons_are_equal_anchor_missing :
    polygons_are_equal ([⟨0, 0⟩, ⟨4, 0⟩, ⟨0, 4⟩] : List Point_2)
        [⟨9, 9⟩, ⟨4, 0⟩, ⟨0, 4⟩] = some true ∧
      polygons_are_equal ([⟨0, 0⟩] : List Point_2) [⟨9, 9⟩] = some true := by
  decide

/-- C5: for non-empty sequences of different lengths the exact matcher returns, and
returns `false`, whatever the vertices are and whether or not the anchor is found. -/
theorem polygons_are_equal_length_mismatch (P Q : List α) (hP : P ≠ []) (hQ : Q ≠ [])
    (hlen : P.length ≠ Q.length) : polygons_are_equal P Q = some false := by
  obtain ⟨a, b, _, _, _, hb, hiff⟩ := polygons_are_equal_spec P Q hP hQ
  rw [hb]
  cases b with
  | false => rfl
  | true => exact absurd (hiff.mp rfl).1 hlen

theorem polygons_are_equal_length_mismatch_witness :
    polygons_are_equal ([⟨0, 0⟩, ⟨4, 0⟩, ⟨0, 4⟩] : List Point_2)
      [⟨4, 0⟩, ⟨0, 4⟩, ⟨0, 2⟩, ⟨0, 0⟩] = some false :=
  polygons_are_equal_length_mismatch _ _ (by decide) (by decide) (by decide)

/-- C6: for a non-empty sequence `P` of pairwise distinct points and every rotation `Q`
of `P`, `P` itself included, the exact matcher returns `true`. -/
theorem polygons_are_equal_rotation (P Q : List α) (hP : P ≠ []) (hnd : P.Nodup)
    (hrot : List.IsRotated P Q) : polygons_are_equal P Q = some true := by
  obtain ⟨r, rfl⟩ := hrot
  have hn : 0 < P.length := List.length_pos.mpr hP
  have hQ : P.rotate r ≠ [] := fun h => hP (List.rotate_eq_nil_iff.mp h)
  obtain ⟨a, b, _, ha, hanchor, hb, hiff⟩ := polygons_are_equal_spec P (P.rotate r) hP hQ
  rw [List.length_rotate] at ha hiff hanchor
  have hP0 : P[0]? = some P[0] := List.getElem?_eq_getElem hn
  have hfound : (P.rotate r)[a]? = P[0]? := by
    rcases hanchor with ⟨h, _⟩ | ⟨_, hnone⟩
    · exact h
    · exfalso
      have hmem : P[0] ∈ P.rotate r := List.mem_rotate.mpr (List.getElem_mem hn)
      obtain ⟨j, hj⟩ := List.getElem?_of_mem hmem
      have hjlt : j < P.length := by
        have := (List.getElem?_eq_some.mp hj).1
        rwa [List.length_rotate] at this
      exact hnone j hjlt (hj.trans hP0.symm)
  rw [List.getElem?_rotate ha] at hfound
  have h0 : (a + r) % P.length = 0 := List.getElem?_inj (Nat.mod_lt _ hn) hnd hfound
  have hb' : b = true := by
    rw [hiff]
    refine ⟨rfl, fun i _ hi => ?_⟩
    rw [List.getElem?_rotate (Nat.mod_lt _ hn), Nat.mod_add_mod]
    have hidx : (a + i + r) % P.length = i := by
      rw [Nat.add_right_comm, ← Nat.mod_add_mod, h0, Nat.zero_add, Nat.mod_eq_of_lt hi]
    rw [hidx]
  rw [hb, hb']

theorem polygons_are_equal_rotation_witness :
    polygons_are_equal ([⟨0, 0⟩, ⟨4, 0⟩, ⟨0, 4⟩] : List Point_2)
      [⟨4, 0⟩, ⟨0, 4⟩, ⟨0, 0⟩] = some true :=
  polygons_are_equal_rotation _ _ (by decide) (by decide) ⟨1, by decide⟩

end ExactClaims

/-! ## Claims about the Steiner-tolerant matcher -/

section SteinerClaims

variable {α : Type} [DecidableEq α]

/-- C2: the claim says that the verdict of `polygons_w_steiner_are_equal` does not depend
on where the candidate starts.  The code answers `false` as soon as the anchor search
stops at the candidate's first position: the original `[A, B, C]` is accepted against
`[B, C, A]` and rejected against `[A, B, C]`. -/
theorem polygons_w_steiner_are_equal_rotation_dependent :
    polygons_w_steiner_are_equal point_kernel ([⟨0, 0⟩, ⟨4, 0⟩, ⟨0, 4⟩] : List Point_2)
        [⟨4, 0⟩, ⟨0, 4⟩, ⟨0, 0⟩] = some true ∧
      polygons_w_steiner_are_equal point_kernel ([⟨0, 0⟩, ⟨4, 0⟩, ⟨0, 4⟩] : List Point_2)
        [⟨0, 0⟩, ⟨4, 0⟩, ⟨0, 4⟩] = some false := by
  decide

/-- C3: the claim says that one extra collinear vertex on any edge of the original,
the closing edge included, is tolerated.  With the original `[A, B, C]`, the code accepts
the midpoint of `A B` and the midpoint of `B C`, and rejects the midpoint of the closing
edge `C A` (candidate `[B, C, M, A]`): its loop stops once the original cursor is back at
its start, with the candidate cursor still on `M`. -/
theorem polygons_w_steiner_are_equal_closing_edge :
    polygons_w_steiner_are_equal point_kernel ([⟨0, 0⟩, ⟨4, 0⟩, ⟨0, 4⟩] : List Point_2)
        [⟨2, 0⟩, ⟨4, 0⟩, ⟨0, 4⟩, ⟨0, 0⟩] = some true ∧
      polygons_w_steiner_are_equal point_kernel ([⟨0, 0⟩, ⟨4, 0⟩, ⟨0, 4⟩] : List Point_2)
        [⟨4, 0⟩, ⟨2, 2⟩, ⟨0, 4⟩, ⟨0, 0⟩] = some true ∧
      polygons_w_steiner_are_equal point_kernel ([⟨0, 0⟩, ⟨4, 0⟩, ⟨0, 4⟩] : List Point_2)
        [⟨4, 0⟩, ⟨0, 4⟩, ⟨0, 2⟩, ⟨0, 0⟩] = some false := by
  decide

/-- C4: when the Steiner-tolerant matcher returns `true` on non-empty sequences, the
original is no longer than the candidate, every original vertex occurs in the candidate,
and the original is a subsequence of the candidate read cyclically from the anchor `a`
(the first index holding the original's first vertex): there are offsets
`0 = k 0 < k 1 < ... < k (n - 1) < m` with `P[j] = Q[(a + k j) mod m]`.  Hence an original
with a vertex absent from the candidate is rejected. -/
theorem polygons_w_steiner_are_equal_sound (K : Kernel α) (P Q : List α)
    (hP : P ≠ []) (hQ : Q ≠ []) :
    (polygons_w_steiner_are_equal K P Q = some true →
      P.length ≤ Q.length ∧ (∀ p, p ∈ P → p ∈ Q) ∧
      ∃ a, a < Q.length ∧ Q[a]? = P[0]? ∧ (∀ i, i < a → Q[i]? ≠ P[0]?) ∧
        ∃ k : Nat → Nat, k 0 = 0 ∧
          (∀ i j, i < j → j < P.length → k i < k j) ∧
          (∀ j, j < P.length → k j < Q.length) ∧
          (∀ j, j < P.length → P[j]? = Q[(a + k j) % Q.length]?)) ∧
    ((∃ p, p ∈ P ∧ p ∉ Q) → polygons_w_steiner_are_equal K P Q = some false) := by
  have hn : 0 < P.length := List.length_pos.mpr hP
  have hm : 0 < Q.length := List.length_pos.mpr hQ
  have key : polygons_w_steiner_are_equal K P Q = some true →
      P.length ≤ Q.length ∧ (∀ p, p ∈ P → p ∈ Q) ∧
      ∃ a, a < Q.length ∧ Q[a]? = P[0]? ∧ (∀ i, i < a → Q[i]? ≠ P[0]?) ∧
        ∃ k : Nat → Nat, k 0 = 0 ∧
          (∀ i j, i < j → j < P.length → k i < k j) ∧
          (∀ j, j < P.length → k j < Q.length) ∧
          (∀ j, j < P.length → P[j]? = Q[(a + k j) % Q.length]?) := by
    intro h
    obtain ⟨a, ha, hfound, hfirst, k, hk0, hkstep, hkbound, hkmatch⟩ :=
      polygons_w_steiner_are_equal_offsets K P Q hP hQ h
    refine ⟨?_, ?_, a, ha, hfound, hfirst, k, hk0,
      offsets_increasing k P.length hkstep, hkbound, hkmatch⟩
    · have h1 := index_le_offset k P.length hkstep (P.length - 1) (by omega)
      have h2 := hkbound (P.length - 1) (by omega)
      omega
    · intro p hp
      obtain ⟨j, hj⟩ := List.getElem?_of_mem hp
      have hjn : j < P.length := (List.getElem?_eq_some.mp hj).1
      exact List.getElem?_mem ((hkmatch j hjn).symm.trans hj)
  refine ⟨key, ?_⟩
  rintro ⟨p, hp, hpQ⟩
  obtain ⟨b, hb⟩ := polygons_w_steiner_are_equal_returns K P Q hP hQ
  cases b with
  | false => exact hb
  | true => exact absurd ((key hb).2.1 p hp) hpQ

theorem polygons_w_steiner_are_equal_sound_witness :
    polygons_w_steiner_are_equal point_kernel ([⟨0, 0⟩, ⟨4, 0⟩, ⟨0, 4⟩] : List Point_2)
        [⟨4, 0⟩, ⟨2, 2⟩, ⟨0, 4⟩, ⟨0, 0⟩] = some true ∧
      ([⟨0, 0⟩, ⟨4, 0⟩, ⟨0, 4⟩] : List Point_2).length ≤
        ([⟨4, 0⟩, ⟨2, 2⟩, ⟨0, 4⟩, ⟨0, 0⟩] : List Point_2).length ∧
      (∀ p, p ∈ ([⟨0, 0⟩, ⟨4, 0⟩, ⟨0, 4⟩] : List Point_2) →
        p ∈ ([⟨4, 0⟩, ⟨2, 2⟩, ⟨0, 4⟩, ⟨0, 0⟩] : List Point_2)) ∧
      polygons_w_steiner_are_equal point_kernel ([⟨0, 0⟩, ⟨4, 0⟩, ⟨1, 1⟩] : List Point_2)
        [⟨4, 0⟩, ⟨0, 4⟩, ⟨0, 0⟩] = some false :=
  ⟨by decide,
    ((polygons_w_steiner_are_equal_sound point_kernel _ _ (by decide) (by decide)).1
      (by decide)).1,
    ((polygons_w_steiner_are_equal_sound point_kernel _ _ (by decide) (by decide)).1
      (by decide)).2.1,
    (polygons_w_steiner_are_equal_sound point_kernel _ _ (by decide) (by decide)).2
      ⟨⟨1, 1⟩, by decide, by decide⟩⟩

end SteinerClaims

/-! ## The sub-polygon loop of the validator -/

section SubPolygonLoop

variable {α : Type}

/-- On counter-clockwise sub-polygons the loop over the sub-polygons leaves the function
with `false` exactly when some sub-polygon fails the predicate, and runs to its end
otherwise. -/
theorem check_sub_polygons_of_ccw (traits : Partition_traits α) (V : List α → Bool) :
    ∀ polys : List (List α),
      (∀ poly, poly ∈ polys → traits.orientation_2 poly = Orientation.COUNTERCLOCKWISE) →
      check_sub_polygons traits V polys =
        if polys.all V then none else some (Outcome.verdict false) := by
  intro polys
  induction polys with
  | nil => intro _; rfl
  | cons poly rest ih =>
    intro hsub
    have hpoly := hsub poly (List.mem_cons_self _ _)
    have hrest := ih (fun q hq => hsub q (List.mem_cons_of_mem _ hq))
    simp only [check_sub_polygons, hpoly, ne_eq, not_true_eq_false, if_false, hrest,
      List.all_cons]
    by_cases hV : V poly = true
    · simp [hV]
    · simp [Bool.not_eq_true _ ▸ hV]

/-- The loop over the sub-polygons with the vacuous predicate, on counter-clockwise
sub-polygons, runs to its end. -/
theorem check_sub_polygons_vacuous (traits : Partition_traits α) (polys : List (List α))
    (hsub : ∀ poly, poly ∈ polys →
      traits.orientation_2 poly = Orientation.COUNTERCLOCKWISE) :
    check_sub_polygons traits is_vacuously_valid polys = none := by
  rw [check_sub_polygons_of_ccw traits _ polys hsub]
  have : polys.all (is_vacuously_valid : List α → Bool) = true := by
    simp [is_vacuously_valid]
  simp [this]

end SubPolygonLoop

section ValidatorLemmas

variable {α : Type} [DecidableEq α]

/-- On a counter-clockwise original and counter-clockwise sub-polygons, the validator
with predicate `V` agrees with the validator with the vacuous predicate when every
sub-polygon satisfies `V`, and returns `false` otherwise. -/
theorem partition_is_valid_2_split (traits : Partition_traits α) (V : List α → Bool)
    (points : List α) (polys : List (List α))
    (hccw : traits.orientation_2 points = Orientation.COUNTERCLOCKWISE)
    (hsub : ∀ poly, poly ∈ polys →
      traits.orientation_2 poly = Orientation.COUNTERCLOCKWISE) :
    partition_is_valid_2 traits V points polys =
      if polys.all V then partition_is_valid_2 traits is_vacuously_valid points polys
      else Outcome.verdict false := by
  cases hpolys : polys with
  | nil => simp [partition_is_valid_2]
  | cons poly rest =>
    rw [← hpolys]
    have hne : polys.isEmpty = false := by rw [hpolys]; rfl
    simp only [partition_is_valid_2, hne, hccw, ne_eq, not_true_eq_false, if_false,
      check_sub_polygons_of_ccw traits V polys hsub,
      check_sub_polygons_vacuous traits polys hsub, Bool.false_eq_true]
    cases hov : (traits.vertex_map polys).polygons_overlap
    · cases hall : polys.all V <;> simp
    · cases hall : polys.all V <;> simp

end ValidatorLemmas

/-! ## Claims about the validator -/

section ValidatorClaims

variable {α : Type} [DecidableEq α]

/-- C7, as the claim states it: a clockwise original with the empty sub-polygon collection
does not end in the precondition failure; the validator returns the verdict `false`. -/
theorem partition_is_valid_2_clockwise_empty_partition :
    orientation_2 [⟨0, 0⟩, ⟨0, 4⟩, ⟨4, 0⟩] = Orientation.CLOCKWISE ∧
      partition_is_valid_2 (sample_traits false [] true) is_vacuously_valid
        [⟨0, 0⟩, ⟨0, 4⟩, ⟨4, 0⟩] [] = Outcome.verdict false := by
  decide

/-- C7, amended: for every original whose orientation is not counter-clockwise and every
non-empty sub-polygon collection the validator ends in the precondition failure, whatever
the predicate and the vertex map; for the empty collection it returns its verdict (is the
original empty) before the orientation is examined. -/
theorem partition_is_valid_2_orientation_precondition (traits : Partition_traits α)
    (is_valid : List α → Bool) (points : List α) (polys : List (List α))
    (hcw : traits.orientation_2 points ≠ Orientation.COUNTERCLOCKWISE) :
    (polys ≠ [] →
      partition_is_valid_2 traits is_valid points polys = Outcome.precondition_failure) ∧
    (polys = [] →
      partition_is_valid_2 traits is_valid points polys =
        Outcome.verdict (decide (points = []))) := by
  constructor
  · intro hne
    cases polys with
    | nil => exact absurd rfl hne
    | cons poly rest => simp [partition_is_valid_2, hcw]
  · intro he
    subst he
    cases points <;> simp [partition_is_valid_2]

theorem partition_is_valid_2_orientation_precondition_witness :
    orientation_2 [⟨0, 0⟩, ⟨0, 4⟩, ⟨4, 0⟩] ≠ Orientation.COUNTERCLOCKWISE ∧
      partition_is_valid_2 (sample_traits false [⟨0, 0⟩, ⟨0, 4⟩, ⟨4, 0⟩] true)
        is_vacuously_valid [⟨0, 0⟩, ⟨0, 4⟩, ⟨4, 0⟩] [[⟨0, 0⟩, ⟨0, 4⟩, ⟨4, 0⟩]]
        = Outcome.precondition_failure :=
  ⟨by decide,
    (partition_is_valid_2_orientation_precondition
      (sample_traits false [⟨0, 0⟩, ⟨0, 4⟩, ⟨4, 0⟩] true) is_vacuously_valid
      [⟨0, 0⟩, ⟨0, 4⟩, ⟨4, 0⟩] [[⟨0, 0⟩, ⟨0, 4⟩, ⟨4, 0⟩]] (by decide)).1 (by decide)⟩

/-- C8: with an empty sub-polygon collection the validator returns a verdict, which is
`true` if and only if the original point sequence is empty, whatever the validity
predicate, the orientation test, the vertex map and the kernel are. -/
theorem partition_is_valid_2_empty_partition (traits : Partition_traits α)
    (is_valid : List α → Bool) (points : List α) :
    ∃ b, partition_is_valid_2 traits is_valid points [] = Outcome.verdict b ∧
      (b = true ↔ points = []) := by
  refine ⟨points.isEmpty, by simp [partition_is_valid_2], ?_⟩
  cases points <;> simp

/-- C9: for a counter-clockwise original and a non-empty partition whose vertex map
reports an overlap, the validator returns `false`, whatever the validity predicate, the
orientations of the sub-polygons and the union boundary are. -/
theorem partition_is_valid_2_overlap (traits : Partition_traits α)
    (is_valid : List α → Bool) (points : List α) (polys : List (List α))
    (hccw : traits.orientation_2 points = Orientation.COUNTERCLOCKWISE)
    (hne : polys ≠ [])
    (hov : (traits.vertex_map polys).polygons_overlap = true) :
    partition_is_valid_2 traits is_valid points polys = Outcome.verdict false := by
  cases polys with
  | nil => exact absurd rfl hne
  | cons poly rest => simp [partition_is_valid_2, hccw, hov]

theorem partition_is_valid_2_overlap_witness :
    polygons_are_equal ([⟨0, 0⟩, ⟨4, 0⟩, ⟨4, 4⟩, ⟨0, 4⟩] : List Point_2)
        [⟨0, 0⟩, ⟨4, 0⟩, ⟨4, 4⟩, ⟨0, 4⟩] = some true ∧
      partition_is_valid_2 (sample_traits true [⟨0, 0⟩, ⟨4, 0⟩, ⟨4, 4⟩, ⟨0, 4⟩] true)
        is_vacuously_valid [⟨0, 0⟩, ⟨4, 0⟩, ⟨4, 4⟩, ⟨0, 4⟩]
        [[⟨0, 0⟩, ⟨4, 0⟩, ⟨4, 4⟩], [⟨0, 0⟩, ⟨4, 0⟩, ⟨0, 4⟩]] = Outcome.verdict false :=
  ⟨by decide,
    partition_is_valid_2_overlap
      (sample_traits true [⟨0, 0⟩, ⟨4, 0⟩, ⟨4, 4⟩, ⟨0, 4⟩] true) is_vacuously_valid
      [⟨0, 0⟩, ⟨4, 0⟩, ⟨4, 4⟩, ⟨0, 4⟩]
      [[⟨0, 0⟩, ⟨4, 0⟩, ⟨4, 4⟩], [⟨0, 0⟩, ⟨4, 0⟩, ⟨0, 4⟩]]
      (by decide) (by decide) (by decide)⟩

/-- C10: on a counter-clockwise original with counter-clockwise sub-polygons, the
validator with a predicate `V` returns the verdict of the validator with the vacuous
predicate AND "`V` holds for every sub-polygon": it agrees with the vacuous variant when
every sub-polygon satisfies `V` and returns `false` otherwise.  The convex and y-monotone
wrappers are this with `V` the traits' `Is_convex_2` and `Is_y_monotone_2`, so a partition
valid for the vacuous predicate with a sub-polygon failing `Is_convex_2` is rejected by
`convex_partition_is_valid_2`. -/
theorem partition_is_valid_2_predicate_decomposition (traits : Partition_traits α)
    (V : List α → Bool) (points : List α) (polys : List (List α))
    (hccw : traits.orientation_2 points = Orientation.COUNTERCLOCKWISE)
    (hsub : ∀ poly, poly ∈ polys →
      traits.orientation_2 poly = Orientation.COUNTERCLOCKWISE) :
    (∀ b, CGAL_partition_is_valid_2 traits points polys = Outcome.verdict b →
      partition_is_valid_2 traits V points polys = Outcome.verdict (b && polys.all V)) ∧
    (partition_is_valid_2 traits V points polys =
      if polys.all V then CGAL_partition_is_valid_2 traits points polys
      else Outcome.verdict false) ∧
    (convex_partition_is_valid_2 traits points polys =
      if polys.all traits.is_convex_2 then CGAL_partition_is_valid_2 traits points polys
      else Outcome.verdict false) ∧
    (y_monotone_partition_is_valid_2 traits points polys =
      if polys.all traits.is_y_monotone_2 then CGAL_partition_is_valid_2 traits points polys
      else Outcome.verdict false) ∧
    (CGAL_partition_is_valid_2 traits points polys = Outcome.verdict true →
      (∃ poly, poly ∈ polys ∧ traits.is_convex_2 poly = false) →
      convex_partition_is_valid_2 traits points polys = Outcome.verdict false) := by
  have hsplit := fun W => partition_is_valid_2_split traits W points polys hccw hsub
  refine ⟨?_, hsplit V, hsplit _, hsplit _, ?_⟩
  · intro b hb
    rw [hsplit V]
    unfold CGAL_partition_is_valid_2 at hb
    cases hall : polys.all V <;> simp [hb]
  · rintro _ ⟨poly, hmem, hconv⟩
    have hall : polys.all traits.is_convex_2 = false := by
      rw [Bool.eq_false_iff]
      intro h
      rw [List.all_eq_true] at h
      rw [h poly hmem] at hconv
      cases hconv
    unfold convex_partition_is_valid_2
    rw [hsplit traits.is_convex_2]
    simp [hall]

theorem partition_is_valid_2_predicate_decomposition_witness :
    CGAL_partition_is_valid_2
        (sample_traits false [⟨4, 0⟩, ⟨4, 4⟩, ⟨1, 1⟩, ⟨0, 4⟩, ⟨0, 0⟩] true)
        [⟨0, 0⟩, ⟨4, 0⟩, ⟨4, 4⟩, ⟨1, 1⟩, ⟨0, 4⟩]
        [[⟨0, 0⟩, ⟨4, 0⟩, ⟨4, 4⟩, ⟨1, 1⟩, ⟨0, 4⟩]] = Outcome.verdict true ∧
      convex_partition_is_valid_2
        (sample_traits false [⟨4, 0⟩, ⟨4, 4⟩, ⟨1, 1⟩, ⟨0, 4⟩, ⟨0, 0⟩] true)
        [⟨0, 0⟩, ⟨4, 0⟩, ⟨4, 4⟩, ⟨1, 1⟩, ⟨0, 4⟩]
        [[⟨0, 0⟩, ⟨4, 0⟩, ⟨4, 4⟩, ⟨1, 1⟩, ⟨0, 4⟩]] = Outcome.verdict false :=
  ⟨by decide,
    (partition_is_valid_2_predicate_decomposition
      (sample_traits false [⟨4, 0⟩, ⟨4, 4⟩, ⟨1, 1⟩, ⟨0, 4⟩, ⟨0, 0⟩] true) is_convex_2
      [⟨0, 0⟩, ⟨4, 0⟩, ⟨4, 4⟩, ⟨1, 1⟩, ⟨0, 4⟩]
      [[⟨0, 0⟩, ⟨4, 0⟩, ⟨4, 4⟩, ⟨1, 1⟩, ⟨0, 4⟩]]
      (by decide) (by decide)).2.2.2.2 (by decide)
      ⟨[⟨0, 0⟩, ⟨4, 0⟩, ⟨4, 4⟩, ⟨1, 1⟩, ⟨0, 4⟩], by decide, by decide⟩⟩

end ValidatorClaims

/-! ## Claims about the dispatch, the exact characterisation and termination -/

section DispatchClaims

variable {α : Type} [DecidableEq α]

/-- C11: for a non-empty partition with a counter-clockwise original, no overlap, and
sub-polygons that are all counter-clockwise and all satisfy the predicate, the verdict of
`partition_is_valid_2` is the result of `polygons_are_equal(original, union)` when the
union boundary has as many vertices as the original, and the result of
`polygons_w_steiner_are_equal(original, union)` otherwise; for a non-empty original and
a non-empty union boundary the matcher returns, so there is such a verdict. -/
theorem partition_is_valid_2_dispatch (traits : Partition_traits α)
    (is_valid : List α → Bool) (points : List α) (polys : List (List α))
    (hne : polys ≠ [])
    (hccw : traits.orientation_2 points = Orientation.COUNTERCLOCKWISE)
    (hov : (traits.vertex_map polys).polygons_overlap = false)
    (hsub : ∀ poly, poly ∈ polys →
      traits.orientation_2 poly = Orientation.COUNTERCLOCKWISE)
    (hvalid : ∀ poly, poly ∈ polys → is_valid poly = true) :
    (points.length = (traits.vertex_map polys).union_vertices.length →
      ∀ b, polygons_are_equal points (traits.vertex_map polys).union_vertices = some b →
        partition_is_valid_2 traits is_valid points polys = Outcome.verdict b) ∧
    (points.length ≠ (traits.vertex_map polys).union_vertices.length →
      ∀ b, polygons_w_steiner_are_equal traits.kernel points
          (traits.vertex_map polys).union_vertices = some b →
        partition_is_valid_2 traits is_valid points polys = Outcome.verdict b) ∧
    (points ≠ [] → (traits.vertex_map polys).union_vertices ≠ [] →
      ∃ b, partition_is_valid_2 traits is_valid points polys = Outcome.verdict b ∧
        (if points.length = (traits.vertex_map polys).union_vertices.length then
          polygons_are_equal points (traits.vertex_map polys).union_vertices
        else polygons_w_steiner_are_equal traits.kernel points
          (traits.vertex_map polys).union_vertices) = some b) := by
  have hempty : polys.isEmpty = false := by
    cases polys with
    | nil => exact absurd rfl hne
    | cons _ _ => rfl
  have hall : polys.all is_valid = true := List.all_eq_true.mpr hvalid
  have hloop : check_sub_polygons traits is_valid polys = none := by
    rw [check_sub_polygons_of_ccw traits is_valid polys hsub, hall]; rfl
  have hequal : points.length = (traits.vertex_map polys).union_vertices.length →
      ∀ b, polygons_are_equal points (traits.vertex_map polys).union_vertices = some b →
        partition_is_valid_2 traits is_valid points polys = Outcome.verdict b := by
    intro hlen b hb
    simp only [partition_is_valid_2, hempty, hccw, hov, hloop, hlen, hb, ne_eq,
      not_true_eq_false, if_false, if_true, Bool.false_eq_true]
  have hsteiner : points.length ≠ (traits.vertex_map polys).union_vertices.length →
      ∀ b, polygons_w_steiner_are_equal traits.kernel points
          (traits.vertex_map polys).union_vertices = some b →
        partition_is_valid_2 traits is_valid points polys = Outcome.verdict b := by
    intro hlen b hb
    simp only [partition_is_valid_2, hempty, hccw, hov, hloop, hlen, hb, ne_eq,
      not_true_eq_false, if_false, Bool.false_eq_true]
  refine ⟨hequal, hsteiner, ?_⟩
  intro hpoints hunion
  by_cases hlen : points.length = (traits.vertex_map polys).union_vertices.length
  · obtain ⟨_, b, _, _, _, hb, _⟩ := polygons_are_equal_spec points _ hpoints hunion
    exact ⟨b, hequal hlen b hb, by rw [if_pos hlen]; exact hb⟩
  · obtain ⟨b, hb⟩ :=
      polygons_w_steiner_are_equal_returns traits.kernel points _ hpoints hunion
    exact ⟨b, hsteiner hlen b hb, by rw [if_neg hlen]; exact hb⟩

theorem partition_is_valid_2_dispatch_witness :
    partition_is_valid_2 (sample_traits false [⟨4, 0⟩, ⟨0, 4⟩, ⟨0, 0⟩] true)
        is_vacuously_valid [⟨0, 0⟩, ⟨4, 0⟩, ⟨0, 4⟩] [[⟨0, 0⟩, ⟨4, 0⟩, ⟨0, 4⟩]]
        = Outcome.verdict true ∧
      partition_is_valid_2 (sample_traits false [⟨4, 0⟩, ⟨2, 2⟩, ⟨0, 4⟩, ⟨0, 0⟩] true)
        is_vacuously_valid [⟨0, 0⟩, ⟨4, 0⟩, ⟨0, 4⟩] [[⟨0, 0⟩, ⟨4, 0⟩, ⟨2, 2⟩, ⟨0, 4⟩]]
        = Outcome.verdict true :=
  ⟨(partition_is_valid_2_dispatch
      (sample_traits false [⟨4, 0⟩, ⟨0, 4⟩, ⟨0, 0⟩] true) is_vacuously_valid
      [⟨0, 0⟩, ⟨4, 0⟩, ⟨0, 4⟩] [[⟨0, 0⟩, ⟨4, 0⟩, ⟨0, 4⟩]]
      (by decide) (by decide) (by decide) (by decide) (by decide)).1 (by decide) true
      (by decide),
    (partition_is_valid_2_dispatch
      (sample_traits false [⟨4, 0⟩, ⟨2, 2⟩, ⟨0, 4⟩, ⟨0, 0⟩] true) is_vacuously_valid
      [⟨0, 0⟩, ⟨4, 0⟩, ⟨0, 4⟩] [[⟨0, 0⟩, ⟨4, 0⟩, ⟨2, 2⟩, ⟨0, 4⟩]]
      (by decide) (by decide) (by decide) (by decide) (by decide)).2.1 (by decide) true
      (by decide)⟩

/-- C17: for non-empty sequences such that the candidate holds the original's first
vertex, first at index `a`, the exact matcher returns, and returns `true` if and only
if the lengths agree and `P[i] = Q[(a + i) mod n]` for every `i < n`. -/
theorem polygons_are_equal_iff_aligned (P Q : List α) (a : Nat) (hP : P ≠ []) (hQ : Q ≠ [])
    (ha : a < Q.length) (hfound : Q[a]? = P[0]?)
    (hfirst : ∀ j, j < a → Q[j]? ≠ P[0]?) :
    (∃ b, polygons_are_equal P Q = some b) ∧
    (polygons_are_equal P Q = some true ↔
      P.length = Q.length ∧ ∀ i, i < P.length → P[i]? = Q[(a + i) % P.length]?) := by
  obtain ⟨a', b, _, ha', hanchor, hb, hiff⟩ := polygons_are_equal_spec P Q hP hQ
  have haa : a' = a := by
    rcases hanchor with ⟨hf', hfirst'⟩ | ⟨_, hnone⟩
    · rcases Nat.lt_trichotomy a' a with h | h | h
      · exact absurd hf' (hfirst a' h)
      · exact h
      · exact absurd hfound (hfirst' a h)
    · exact absurd hfound (hnone a ha)
  subst haa
  refine ⟨⟨b, hb⟩, ?_⟩
  rw [hb]
  constructor
  · intro h
    have hbt : b = true := Option.some.inj h
    obtain ⟨hlen, hall⟩ := hiff.mp hbt
    refine ⟨hlen, fun i hi => ?_⟩
    rw [hlen]
    rcases Nat.eq_zero_or_pos i with h0 | h0
    · subst h0; rw [Nat.add_zero, Nat.mod_eq_of_lt ha', hfound]
    · exact hall i h0 hi
  · rintro ⟨hlen, hall⟩
    have hbt : b = true := by
      rw [hiff]
      refine ⟨hlen, fun i _ hi => ?_⟩
      rw [← hlen]; exact hall i hi
    rw [hbt]

theorem polygons_are_equal_iff_aligned_witness :
    polygons_are_equal ([⟨0, 0⟩, ⟨4, 0⟩, ⟨0, 4⟩] : List Point_2)
        [⟨0, 4⟩, ⟨0, 0⟩, ⟨4, 0⟩] = some true ∧
      ¬ polygons_are_equal ([⟨0, 0⟩, ⟨4, 0⟩, ⟨0, 4⟩] : List Point_2)
        [⟨4, 0⟩, ⟨0, 0⟩, ⟨0, 4⟩] = some true :=
  ⟨(polygons_are_equal_iff_aligned _ _ 1 (by decide) (by decide) (by decide) (by decide)
      (by decide)).2.mpr (by decide),
    fun h => absurd
      (((polygons_are_equal_iff_aligned ([⟨0, 0⟩, ⟨4, 0⟩, ⟨0, 4⟩] : List Point_2)
        [⟨4, 0⟩, ⟨0, 0⟩, ⟨0, 4⟩] 1 (by decide) (by decide) (by decide) (by decide)
        (by decide)).2.mp h).2 1 (by decide)) (by decide)⟩

/-- C19: on non-empty sequences, with `m` the length of the candidate, the anchor search
of `polygons_w_steiner_are_equal` ends within `m` loop tests, its main loop, entered at
any anchor, ends within `m` rounds, and the matcher returns a verdict.  (The numeric
argument of the two loop functions is the number of tests, respectively rounds, they may
use; they yield a result only if that number is enough.) -/
theorem polygons_w_steiner_are_equal_terminates (K : Kernel α) (P Q : List α)
    (hP : P ≠ []) (hQ : Q ≠ []) :
    (∃ a, find_first_vertex P Q Q.length 0 = some a ∧ a < Q.length) ∧
    (∀ a prev, a < Q.length →
      ∃ b, polygons_w_steiner_are_equal_loop K P Q a Q.length prev 0 a = some b) ∧
    (∃ b, polygons_w_steiner_are_equal K P Q = some b) := by
  have hn : 0 < P.length := List.length_pos.mpr hP
  have hm : 0 < Q.length := List.length_pos.mpr hQ
  refine ⟨?_, ?_, polygons_w_steiner_are_equal_returns K P Q hP hQ⟩
  · obtain ⟨a, hfind, ha, _⟩ :=
      find_first_vertex_spec P Q P[0] (List.getElem?_eq_getElem hn) hm
    exact ⟨a, hfind, ha⟩
  · intro a prev ha
    obtain ⟨b, hb⟩ :=
      polygons_w_steiner_are_equal_loop_returns K P Q a ha Q.length prev 0 0 hn hm (by omega)
    rw [Nat.add_zero, Nat.mod_eq_of_lt ha] at hb
    exact ⟨b, hb⟩

theorem polygons_w_steiner_are_equal_terminates_witness :
    ∃ b, polygons_w_steiner_are_equal point_kernel ([⟨0, 0⟩, ⟨4, 0⟩, ⟨0, 4⟩] : List Point_2)
      [⟨4, 0⟩, ⟨9, 9⟩, ⟨0, 0⟩, ⟨7, 7⟩, ⟨8, 8⟩] = some b :=
  (polygons_w_steiner_are_equal_terminates point_kernel _ _ (by decide) (by decide)).2.2

end DispatchClaims

/-! ## Claims about the Steiner steps of the main loop -/

/-- The betweenness predicate over `Point_2` is strict: a point ordered between two
others differs from both. -/
theorem collinear_are_ordered_along_line_strict (p q r : Point_2)
    (h : collinear_are_ordered_along_line p q r = true) : q ≠ p ∧ q ≠ r := by
  constructor
  · rintro rfl
    simp [collinear_are_ordered_along_line] at h
  · rintro rfl
    unfold collinear_are_ordered_along_line at h
    split at h
    · simp at h
    · split at h
      · simp at h
      · split at h
        · simp at h
        · split at h
          · simp at h
          · simp at h

/-- Over `Point_2`: when `X` is ordered between `U` and `V` and `Y` is ordered between
`U` and `X`, then `Y` is not ordered between `X` and `V`. -/
theorem collinear_are_ordered_along_line_out_of_order (U X Y V : Point_2)
    (hX : collinear_are_ordered_along_line U X V = true)
    (hY : collinear_are_ordered_along_line U Y X = true) :
    collinear_are_ordered_along_line X Y V = false := by
  unfold collinear_are_ordered_along_line at hX hY ⊢
  split_ifs at hX hY ⊢ <;> simp_all <;> omega

/-- C18: in the main loop of `polygons_w_steiner_are_equal`, a round whose candidate
vertex `c` differs from the pending original vertex `o` returns `false` unless `c` is
collinear with `prev_pt` and `o` and ordered between them, which (for the betweenness
predicate as the spec describes it) makes `c` different from both `prev_pt` and `o`.  In
particular a round with `c = prev_pt` returns `false`. -/
theorem polygons_w_steiner_are_equal_strict_betweenness (P Q : List Point_2)
    (a fuel oc nc : Nat) (prev c o : Point_2)
    (hc : Q[nc]? = some c) (ho : P[oc]? = some o) (hne : c ≠ o) :
    (polygons_w_steiner_are_equal_loop point_kernel P Q a (fuel + 1) prev oc nc
        ≠ some false →
      collinear prev c o = true ∧ collinear_are_ordered_along_line prev c o = true ∧
        c ≠ prev ∧ c ≠ o) ∧
    (c = prev →
      polygons_w_steiner_are_equal_loop point_kernel P Q a (fuel + 1) prev oc nc
        = some false) := by
  have key : ¬ (collinear prev c o = true ∧
        collinear_are_ordered_along_line prev c o = true) →
      polygons_w_steiner_are_equal_loop point_kernel P Q a (fuel + 1) prev oc nc
        = some false := by
    intro hnot
    apply polygons_w_steiner_are_equal_loop_reject point_kernel P Q a fuel oc nc prev c o
      hc ho hne
    show collinear prev c o = false ∨ collinear_are_ordered_along_line prev c o = false
    cases h1 : collinear prev c o
    · exact Or.inl rfl
    · cases h2 : collinear_are_ordered_along_line prev c o
      · exact Or.inr rfl
      · exact absurd ⟨h1, h2⟩ hnot
  constructor
  · intro hres
    by_cases hboth : collinear prev c o = true ∧
        collinear_are_ordered_along_line prev c o = true
    · exact ⟨hboth.1, hboth.2,
        (collinear_are_ordered_along_line_strict prev c o hboth.2).1, hne⟩
    · exact absurd (key hboth) hres
  · intro hcp
    apply key
    rintro ⟨_, hord⟩
    exact (collinear_are_ordered_along_line_strict prev c o hord).1 hcp

theorem polygons_w_steiner_are_equal_strict_betweenness_witness :
    polygons_w_steiner_are_equal point_kernel ([⟨0, 0⟩, ⟨4, 0⟩, ⟨0, 4⟩] : List Point_2)
        [⟨4, 0⟩, ⟨0, 4⟩, ⟨0, 0⟩, ⟨0, 0⟩] = some false ∧
      polygons_w_steiner_are_equal_loop point_kernel
        ([⟨0, 0⟩, ⟨4, 0⟩, ⟨0, 4⟩] : List Point_2) [⟨4, 0⟩, ⟨0, 4⟩, ⟨0, 0⟩, ⟨0, 0⟩]
        2 (2 + 1) ⟨0, 0⟩ 1 3 = some false :=
  ⟨by decide,
    (polygons_w_steiner_are_equal_strict_betweenness
      [⟨0, 0⟩, ⟨4, 0⟩, ⟨0, 4⟩] [⟨4, 0⟩, ⟨0, 4⟩, ⟨0, 0⟩, ⟨0, 0⟩] 2 2 1 3
      ⟨0, 0⟩ ⟨0, 0⟩ ⟨4, 0⟩ (by decide) (by decide) (by decide)).2 rfl⟩

section SteinerOrderClaims

variable {α : Type} [DecidableEq α]

/-- C20: let `P` have pairwise distinct vertices and let two further points `X`, `Y` be
listed, in this order, between the consecutive original vertices `P[i]` and
`V = P[(i + 1) mod n]`.  When `Y` is not ordered between `X` and `V`, the Steiner-tolerant
matcher returns `false` on every rotation of that candidate, whatever the kernel says
about `X` and `Y` taken one at a time. -/
theorem polygons_w_steiner_are_equal_extras_out_of_order (K : Kernel α) (P : List α)
    (X Y v : α) (i r : Nat) (hnd : P.Nodup) (hX : X ∉ P) (hY : Y ∉ P) (hXY : X ≠ Y)
    (hi : i < P.length) (hv : P[(i + 1) % P.length]? = some v)
    (hord : K.collinear_are_ordered_along_line X Y v = false) :
    polygons_w_steiner_are_equal K P
      ((P.take (i + 1) ++ X :: Y :: P.drop (i + 1)).rotate r) = some false := by
  have hn : 0 < P.length := by omega
  have hP0 : P[0]? = some P[0] := List.getElem?_eq_getElem hn
  have htake : (P.take (i + 1)).length = i + 1 := by
    rw [List.length_take]; omega
  have hlen' : (P.take (i + 1) ++ X :: Y :: P.drop (i + 1)).length = P.length + 2 := by
    rw [List.length_append, List.length_cons, List.length_cons, List.length_drop, htake]
    omega
  have hhead' : ∀ t, t ≤ i → (P.take (i + 1) ++ X :: Y :: P.drop (i + 1))[t]? = P[t]? := by
    intro t ht
    rw [List.getElem?_append_left (by omega), List.getElem?_take_of_lt (by omega)]
  have hX' : (P.take (i + 1) ++ X :: Y :: P.drop (i + 1))[i + 1]? = some X := by
    rw [List.getElem?_append_right (by omega), htake, Nat.sub_self]
    exact List.getElem?_cons_zero
  have hY' : (P.take (i + 1) ++ X :: Y :: P.drop (i + 1))[i + 1 + 1]? = some Y := by
    rw [List.getElem?_append_right (by omega), htake]
    have e : i + 1 + 1 - (i + 1) = 0 + 1 := by omega
    rw [e, List.getElem?_cons_succ]
    exact List.getElem?_cons_zero
  have hnd' : (P.take (i + 1) ++ X :: Y :: P.drop (i + 1)).Nodup := by
    have h1 : List.Perm (P.take (i + 1) ++ X :: Y :: P.drop (i + 1))
        (X :: (P.take (i + 1) ++ Y :: P.drop (i + 1))) := List.perm_middle
    have h2 : List.Perm (P.take (i + 1) ++ Y :: P.drop (i + 1))
        (Y :: (P.take (i + 1) ++ P.drop (i + 1))) := List.perm_middle
    rw [(h1.trans (h2.cons X)).nodup_iff, List.take_append_drop]
    refine List.nodup_cons.mpr ⟨?_, List.nodup_cons.mpr ⟨hY, hnd⟩⟩
    intro hmem
    rcases List.mem_cons.mp hmem with h | h
    · exact hXY h
    · exact hX h
  generalize hQ' : P.take (i + 1) ++ X :: Y :: P.drop (i + 1) = Q' at *
  have hm' : 0 < Q'.length := by omega
  have hQlen : (Q'.rotate r).length = Q'.length := List.length_rotate _ _
  have hmQ : 0 < (Q'.rotate r).length := by omega
  obtain ⟨a, hfind, ha, hanchor⟩ := find_first_vertex_spec P (Q'.rotate r) P[0] hP0 hmQ
  have hcur : (Q'.rotate r)[a]? = some (Q'.rotate r)[a] := List.getElem?_eq_getElem ha
  by_cases ha0 : a = 0
  · simp only [polygons_w_steiner_are_equal, hfind, ha0, if_true]
  · have hfound : (Q'.rotate r)[a]? = some P[0] := by
      rcases hanchor with ⟨h, _⟩ | ⟨h0, _⟩
      · exact h
      · exact absurd h0 ha0
    have hread := rotate_read_from_anchor Q' r a hnd' (by omega)
      (hfound.trans (hP0.symm.trans (hhead' 0 (Nat.zero_le _)).symm))
    have hvP : v ∈ P := List.getElem?_mem hv
    have hXv : X ≠ v := fun e => hX (e ▸ hvP)
    have hYv : Y ≠ v := fun e => hY (e ▸ hvP)
    simp only [polygons_w_steiner_are_equal, hfind, ha0, if_false, hcur]
    generalize Q'.rotate r = Q at *
    generalize Q[a] = q0
    by_cases hin : i + 1 < P.length
    · -- an edge other than the closing edge: the loop reaches `X` with `V` pending
      obtain ⟨prev', hconsumed⟩ := polygons_w_steiner_are_equal_loop_matched_run K P
        Q a ha (i + 1) hin (by omega)
        (fun t ht => (hread t (by omega)).trans (hhead' t (by omega)))
        Q.length q0 (by omega)
      obtain ⟨f, hf⟩ : ∃ f, Q.length - (i + 1) = f + 2 :=
        ⟨P.length - (i + 1), by omega⟩
      rw [hconsumed, hf]
      rw [Nat.mod_eq_of_lt hin] at hv
      exact polygons_w_steiner_are_equal_loop_two_extras K P Q a f (i + 1)
        (i + 1) prev' X Y v ha (by omega) (by omega)
        ((hread (i + 1) (by omega)).trans hX')
        ((hread (i + 1 + 1) (by omega)).trans hY') hv hXv hYv hord
    · -- the closing edge: the loop stops when the original cursor is back at its start
      have hin' : i + 1 = P.length := by omega
      obtain ⟨prev', hconsumed⟩ := polygons_w_steiner_are_equal_loop_matched_run K P
        Q a ha i hi (by omega)
        (fun t ht => (hread t (by omega)).trans (hhead' t (by omega)))
        Q.length q0 (by omega)
      obtain ⟨f, hf⟩ : ∃ f, Q.length - i = f + 1 :=
        ⟨P.length - i + 1, by omega⟩
      have ho : P[i]? = some P[i] := List.getElem?_eq_getElem hi
      have hc : Q[(a + i) % Q.length]? = some P[i] :=
        ((hread i (by omega)).trans (hhead' i (Nat.le_refl _))).trans ho
      have hon : (i + 1) % P.length = 0 := by rw [hin']; exact Nat.mod_self _
      have hna : (a + (i + 1)) % Q.length ≠ a :=
        add_mod_ne_self ha (by omega) (by omega)
      rw [hconsumed, hf]
      simp [polygons_w_steiner_are_equal_loop, mod_succ_mod, hc, ho, hon, hna]

theorem polygons_w_steiner_are_equal_extras_out_of_order_witness :
    polygons_w_steiner_are_equal point_kernel
        ([⟨0, 0⟩, ⟨4, 0⟩, ⟨0, 4⟩] : List Point_2)
        [⟨0, 4⟩, ⟨0, 0⟩, ⟨1, 0⟩, ⟨3, 0⟩, ⟨4, 0⟩] = some true ∧
      polygons_w_steiner_are_equal point_kernel
        ([⟨0, 0⟩, ⟨4, 0⟩, ⟨0, 4⟩] : List Point_2)
        ((([⟨0, 0⟩, ⟨4, 0⟩, ⟨0, 4⟩] : List Point_2).take (0 + 1) ++
          ⟨3, 0⟩ :: ⟨1, 0⟩ :: ([⟨0, 0⟩, ⟨4, 0⟩, ⟨0, 4⟩] : List Point_2).drop (0 + 1)).rotate 4)
        = some false :=
  ⟨by decide,
    polygons_w_steiner_are_equal_extras_out_of_order point_kernel
      [⟨0, 0⟩, ⟨4, 0⟩, ⟨0, 4⟩] ⟨3, 0⟩ ⟨1, 0⟩ ⟨4, 0⟩ 0 4 (by decide) (by decide) (by decide)
      (by decide) (by decide) (by decide) (by decide)⟩

end SteinerOrderClaims

/-! ## The segment/triangle classifier -/

section ClassifierLemmas

variable {α σ : Type}

/-- The first call of `intersection_type()` on a constructed object: the tag and the
stored points are those of the clipper state after the three cuts. -/
theorem intersection_type_make (k : Clipping_kernel α σ) (d : Defaults α)
    (seg : Segment_2 α) (trian : Triangle_2 α) :
    (Segment_2_Triangle_2_pair.make d seg trian).intersection_type k =
      match k.current_state (clipped k seg trian) with
      | Straight_state.EMPTY =>
        some (Intersection_results.NO,
          ⟨seg, trian, true, Intersection_results.NO, d.point, d.point⟩)
      | Straight_state.POINT =>
        some (Intersection_results.POINT,
          ⟨seg, trian, true, Intersection_results.POINT,
            k.current_point (clipped k seg trian), d.point⟩)
      | Straight_state.SEGMENT =>
        some (Intersection_results.SEGMENT,
          ⟨seg, trian, true, Intersection_results.SEGMENT,
            (k.current_segment (clipped k seg trian)).source,
            (k.current_segment (clipped k seg trian)).target⟩)
      | Straight_state.OTHER => none := by
  simp only [Segment_2_Triangle_2_pair.intersection_type, Segment_2_Triangle_2_pair.make,
    Bool.false_eq_true, if_false]

/-- After a call of `intersection_type()` that returns, the object is marked as known
and stores the returned tag. -/
theorem intersection_type_known (k : Clipping_kernel α σ)
    (self : Segment_2_Triangle_2_pair α) (tag : Intersection_results)
    (after : Segment_2_Triangle_2_pair α)
    (h : self.intersection_type k = some (tag, after)) :
    after._known = true ∧ after._result = tag := by
  unfold Segment_2_Triangle_2_pair.intersection_type at h
  by_cases hk : self._known = true
  · simp only [hk, if_true, Option.some.injEq, Prod.mk.injEq] at h
    obtain ⟨h1, h2⟩ := h
    subst h2
    exact ⟨hk, h1⟩
  · simp only [hk, if_false] at h
    cases hs : k.current_state (clipped k self._seg self._trian) <;>
      simp only [hs, Option.some.injEq, Prod.mk.injEq, reduceCtorEq] at h
    all_goals
      rcases h with ⟨rfl, rfl⟩ <;> exact ⟨rfl, rfl⟩

/-- On an object marked as known, `intersection_type()` returns the stored tag and
leaves the object as it is, whatever the kernel and the clipper are. -/
theorem intersection_type_of_known (k : Clipping_kernel α σ)
    (self : Segment_2_Triangle_2_pair α) (hk : self._known = true) :
    self.intersection_type k = some (self._result, self) := by
  simp [Segment_2_Triangle_2_pair.intersection_type, hk]

end ClassifierLemmas

/-! ## Claims about the segment/triangle classifier -/

section ClassifierClaims

variable {α σ : Type}

/-- C12: `do_intersect(S, T) = do_intersect(T, S)` for every segment `S` and triangle
`T`: the object the reversed overload builds is the classifier for `(S, T)`, and both
overloads read the same `intersection_type()`, whatever the unset members hold. -/
theorem do_intersect_symmetric (k : Clipping_kernel α σ) (d d' : Defaults α)
    (S : Segment_2 α) (T : Triangle_2 α) :
    do_intersect k d S T = do_intersect_Triangle_2_Segment_2 k d' T S ∧
    Triangle_2_Segment_2_pair.make d T S = Segment_2_Triangle_2_pair.make d S T ∧
    ((Triangle_2_Segment_2_pair.make d' T S).intersection_type k).map Prod.fst =
      ((Segment_2_Triangle_2_pair.make d S T).intersection_type k).map Prod.fst := by
  refine ⟨?_, rfl, ?_⟩
  · simp only [do_intersect, do_intersect_Triangle_2_Segment_2,
      Triangle_2_Segment_2_pair.make, intersection_type_make]
    cases k.current_state (clipped k S T) <;> rfl
  · simp only [Triangle_2_Segment_2_pair.make, intersection_type_make]
    cases k.current_state (clipped k S T) <;> rfl

/-- C13: when a call of `intersection_type()` returns a tag, the next call on the same
object returns the same tag and leaves the object (known flag, tag, stored point, other
point) as the first call left it; it does so whatever the kernel and the clipper are,
that is, without running the clipper. -/
theorem intersection_type_idempotent (k : Clipping_kernel α σ)
    (self : Segment_2_Triangle_2_pair α) (tag : Intersection_results)
    (after : Segment_2_Triangle_2_pair α)
    (h : self.intersection_type k = some (tag, after)) :
    after.intersection_type k = some (tag, after) ∧
    ∀ (τ : Type) (other : Clipping_kernel α τ),
      after.intersection_type other = some (tag, after) := by
  obtain ⟨hk, hr⟩ := intersection_type_known k self tag after h
  constructor
  · rw [intersection_type_of_known k after hk, hr]
  · intro τ other
    rw [intersection_type_of_known other after hk, hr]

theorem intersection_type_idempotent_witness :
    (Segment_2_Triangle_2_pair.make rational_defaults ⟨⟨-1, 1⟩, ⟨5, 1⟩⟩
        ⟨⟨0, 0⟩, ⟨4, 0⟩, ⟨0, 4⟩⟩).intersection_type rational_kernel =
      some (Intersection_results.SEGMENT,
        ⟨⟨⟨-1, 1⟩, ⟨5, 1⟩⟩, ⟨⟨0, 0⟩, ⟨4, 0⟩, ⟨0, 4⟩⟩, true, Intersection_results.SEGMENT,
          ⟨0, 1⟩, ⟨3, 1⟩⟩) ∧
      (⟨⟨⟨-1, 1⟩, ⟨5, 1⟩⟩, ⟨⟨0, 0⟩, ⟨4, 0⟩, ⟨0, 4⟩⟩, true, Intersection_results.SEGMENT,
          ⟨0, 1⟩, ⟨3, 1⟩⟩ : Segment_2_Triangle_2_pair QPoint_2).intersection_type
          rational_kernel =
        some (Intersection_results.SEGMENT,
          ⟨⟨⟨-1, 1⟩, ⟨5, 1⟩⟩, ⟨⟨0, 0⟩, ⟨4, 0⟩, ⟨0, 4⟩⟩, true, Intersection_results.SEGMENT,
            ⟨0, 1⟩, ⟨3, 1⟩⟩) := by
  have h : (Segment_2_Triangle_2_pair.make rational_defaults ⟨⟨-1, 1⟩, ⟨5, 1⟩⟩
        ⟨⟨0, 0⟩, ⟨4, 0⟩, ⟨0, 4⟩⟩).intersection_type rational_kernel =
      some (Intersection_results.SEGMENT,
        ⟨⟨⟨-1, 1⟩, ⟨5, 1⟩⟩, ⟨⟨0, 0⟩, ⟨4, 0⟩, ⟨0, 4⟩⟩, true, Intersection_results.SEGMENT,
          ⟨0, 1⟩, ⟨3, 1⟩⟩) := by
    rw [intersection_type_make]
    norm_num [clipped, cut_lines, rational_kernel, oriented_side, orientation_det,
      Straight_2_.from_segment, Straight_2_.cut_right_off, Straight_2_.current_state,
      Straight_2_.current_segment, Straight_2_.current_point, Segment_2.point_at,
      List.foldl]
  exact ⟨h, (intersection_type_idempotent rational_kernel _ _ _ h).1⟩

/-- C14: let an object be built from a segment and a triangle, and let its classification
return `tag`.  On that object, before or after the classification, and for every initial
value of the output argument: `intersection(Point_2&)` returns `true` exactly when the
tag is `POINT`, the output is then the point the clipper reports, and otherwise the
output is left as it was; `intersection(Segment_2&)` does the same for the tag `SEGMENT`
and the segment from the start to the end of the segment the clipper reports. -/
theorem intersection_accessors (k : Clipping_kernel α σ) (d : Defaults α)
    (seg : Segment_2 α) (trian : Triangle_2 α) (tag : Intersection_results)
    (after : Segment_2_Triangle_2_pair α)
    (h : (Segment_2_Triangle_2_pair.make d seg trian).intersection_type k
      = some (tag, after))
    (self : Segment_2_Triangle_2_pair α)
    (hself : self = Segment_2_Triangle_2_pair.make d seg trian ∨ self = after)
    (out_point : α) (out_segment : Segment_2 α) :
    self.intersection_type k = some (tag, after) ∧
    self.intersection_Point_2 k out_point =
      some (decide (tag = Intersection_results.POINT),
        if tag = Intersection_results.POINT then k.current_point (clipped k seg trian)
        else out_point,
        after) ∧
    self.intersection_Segment_2 k out_segment =
      some (decide (tag = Intersection_results.SEGMENT),
        if tag = Intersection_results.SEGMENT then
          ⟨(k.current_segment (clipped k seg trian)).source,
            (k.current_segment (clipped k seg trian)).target⟩
        else out_segment,
        after) := by
  obtain ⟨hk, hr⟩ := intersection_type_known k _ tag after h
  have hafter := intersection_type_of_known k after hk
  rw [hr] at hafter
  have htype : self.intersection_type k = some (tag, after) := by
    rcases hself with e | e
    · rw [e]; exact h
    · rw [e]; exact hafter
  have hclass : (if self._known = false then (self.intersection_type k).map (fun r => r.2)
      else some self) = some after := by
    rcases hself with e | e
    · rw [e, h]; rfl
    · rw [e]; simp [hk]
  have hstored : (tag = Intersection_results.POINT →
        after._intersection_point = k.current_point (clipped k seg trian)) ∧
      (tag = Intersection_results.SEGMENT →
        after._intersection_point = (k.current_segment (clipped k seg trian)).source ∧
        after._other_point = (k.current_segment (clipped k seg trian)).target) := by
    rw [intersection_type_make] at h
    cases hs : k.current_state (clipped k seg trian) <;>
      simp only [hs, Option.some.injEq, Prod.mk.injEq, reduceCtorEq] at h
    all_goals
      rcases h with ⟨rfl, rfl⟩
      simp
  refine ⟨htype, ?_, ?_⟩
  · simp only [Segment_2_Triangle_2_pair.intersection_Point_2, hclass, hr]
    by_cases ht : tag = Intersection_results.POINT
    · simp [ht, hstored.1 ht]
    · simp [ht]
  · simp only [Segment_2_Triangle_2_pair.intersection_Segment_2, hclass, hr]
    by_cases ht : tag = Intersection_results.SEGMENT
    · simp [ht, (hstored.2 ht).1, (hstored.2 ht).2]
    · simp [ht]

theorem intersection_accessors_witness :
    (Segment_2_Triangle_2_pair.make rational_defaults ⟨⟨-1, 1⟩, ⟨1, -1⟩⟩
        ⟨⟨0, 0⟩, ⟨0, 4⟩, ⟨4, 0⟩⟩).intersection_Point_2 rational_kernel ⟨9, 9⟩ =
      some (true, ⟨0, 0⟩,
        ⟨⟨⟨-1, 1⟩, ⟨1, -1⟩⟩, ⟨⟨0, 0⟩, ⟨0, 4⟩, ⟨4, 0⟩⟩, true, Intersection_results.POINT,
          ⟨0, 0⟩, ⟨7, 7⟩⟩) ∧
      (Segment_2_Triangle_2_pair.make rational_defaults ⟨⟨-1, 1⟩, ⟨1, -1⟩⟩
        ⟨⟨0, 0⟩, ⟨0, 4⟩, ⟨4, 0⟩⟩).intersection_Segment_2 rational_kernel
          ⟨⟨8, 8⟩, ⟨9, 9⟩⟩ =
      some (false, ⟨⟨8, 8⟩, ⟨9, 9⟩⟩,
        ⟨⟨⟨-1, 1⟩, ⟨1, -1⟩⟩, ⟨⟨0, 0⟩, ⟨0, 4⟩, ⟨4, 0⟩⟩, true, Intersection_results.POINT,
          ⟨0, 0⟩, ⟨7, 7⟩⟩) := by
  have h : (Segment_2_Triangle_2_pair.make rational_defaults ⟨⟨-1, 1⟩, ⟨1, -1⟩⟩
        ⟨⟨0, 0⟩, ⟨0, 4⟩, ⟨4, 0⟩⟩).intersection_type rational_kernel =
      some (Intersection_results.POINT,
        ⟨⟨⟨-1, 1⟩, ⟨1, -1⟩⟩, ⟨⟨0, 0⟩, ⟨0, 4⟩, ⟨4, 0⟩⟩, true, Intersection_results.POINT,
          ⟨0, 0⟩, ⟨7, 7⟩⟩) := by
    rw [intersection_type_make]
    norm_num [clipped, cut_lines, rational_kernel, rational_defaults, oriented_side,
      orientation_det, Straight_2_.from_segment, Straight_2_.cut_right_off,
      Straight_2_.current_state, Straight_2_.current_segment, Straight_2_.current_point,
      Segment_2.point_at, List.foldl]
  have hp : rational_kernel.current_point (clipped rational_kernel ⟨⟨-1, 1⟩, ⟨1, -1⟩⟩
      ⟨⟨0, 0⟩, ⟨0, 4⟩, ⟨4, 0⟩⟩) = ⟨0, 0⟩ := by
    norm_num [clipped, cut_lines, rational_kernel, oriented_side,
      orientation_det, Straight_2_.from_segment, Straight_2_.cut_right_off,
      Straight_2_.current_point, Segment_2.point_at, List.foldl]
  have w := intersection_accessors rational_kernel rational_defaults
    ⟨⟨-1, 1⟩, ⟨1, -1⟩⟩ ⟨⟨0, 0⟩, ⟨0, 4⟩, ⟨4, 0⟩⟩ _ _ h _ (Or.inl rfl) ⟨9, 9⟩
    ⟨⟨8, 8⟩, ⟨9, 9⟩⟩
  rw [hp] at w
  exact ⟨w.2.1, w.2.2⟩

/-- C15: when the classification of `(S, T)` returns `tag`, the free function
`intersection(S, T)` returns an object which is empty exactly when `do_intersect(S, T)`
is `false`, is a point exactly when the tag is `POINT` (the classifier's stored point),
and is a segment exactly when the tag is `SEGMENT` (the classifier's stored segment);
`intersection(T, S)` returns the same object. -/
theorem intersection_agrees_with_classifier (k : Clipping_kernel α σ) (d : Defaults α)
    (S : Segment_2 α) (T : Triangle_2 α) (tag : Intersection_results)
    (after : Segment_2_Triangle_2_pair α)
    (h : (Segment_2_Triangle_2_pair.make d S T).intersection_type k = some (tag, after)) :
    ∃ obj, intersection k d S T = some obj ∧
      intersection_Triangle_2_Segment_2 k d T S = some obj ∧
      (obj = Object.empty ↔ do_intersect k d S T = some false) ∧
      (∀ p, obj = Object.point p ↔
        tag = Intersection_results.POINT ∧ p = after._intersection_point) ∧
      (∀ s, obj = Object.segment s ↔
        tag = Intersection_results.SEGMENT ∧
          s = ⟨after._intersection_point, after._other_point⟩) := by
  obtain ⟨hk, hr⟩ := intersection_type_known k _ tag after h
  have hdo : do_intersect k d S T = some (decide (tag ≠ Intersection_results.NO)) := by
    simp only [do_intersect, h, Option.map_some']
  cases tag with
  | NO =>
    refine ⟨Object.empty, ?_, ?_, ?_, ?_, ?_⟩
    · simp only [intersection, h]
    · simp only [intersection_Triangle_2_Segment_2, intersection, h]
    · simp [hdo]
    · intro p; simp
    · intro s; simp
  | POINT =>
    have hacc : after.intersection_Point_2 k d.point =
        some (true, after._intersection_point, after) := by
      simp [Segment_2_Triangle_2_pair.intersection_Point_2, hk, hr]
    refine ⟨Object.point after._intersection_point, ?_, ?_, ?_, ?_, ?_⟩
    · simp only [intersection, h, hacc, Option.map_some']
    · simp only [intersection_Triangle_2_Segment_2, intersection, h, hacc, Option.map_some']
    · simp [hdo]
    · intro p
      simp only [Object.point.injEq, true_and]
      exact eq_comm
    · intro s; simp
  | SEGMENT =>
    have hacc : after.intersection_Segment_2 k d.segment =
        some (true, ⟨after._intersection_point, after._other_point⟩, after) := by
      simp [Segment_2_Triangle_2_pair.intersection_Segment_2, hk, hr]
    refine ⟨Object.segment ⟨after._intersection_point, after._other_point⟩, ?_, ?_, ?_, ?_,
      ?_⟩
    · simp only [intersection, h, hacc, Option.map_some']
    · simp only [intersection_Triangle_2_Segment_2, intersection, h, hacc, Option.map_some']
    · simp [hdo]
    · intro p; simp
    · intro s
      simp only [Object.segment.injEq, true_and]
      exact eq_comm

theorem intersection_agrees_with_classifier_witness :
    intersection rational_kernel rational_defaults ⟨⟨-1, 1⟩, ⟨5, 1⟩⟩
        ⟨⟨0, 0⟩, ⟨4, 0⟩, ⟨0, 4⟩⟩ = some (Object.segment ⟨⟨0, 1⟩, ⟨3, 1⟩⟩) ∧
      intersection_Triangle_2_Segment_2 rational_kernel rational_defaults
        ⟨⟨0, 0⟩, ⟨4, 0⟩, ⟨0, 4⟩⟩ ⟨⟨-1, 1⟩, ⟨5, 1⟩⟩ = some (Object.segment ⟨⟨0, 1⟩, ⟨3, 1⟩⟩) := by
  have h : (Segment_2_Triangle_2_pair.make rational_defaults ⟨⟨-1, 1⟩, ⟨5, 1⟩⟩
        ⟨⟨0, 0⟩, ⟨4, 0⟩, ⟨0, 4⟩⟩).intersection_type rational_kernel =
      some (Intersection_results.SEGMENT,
        ⟨⟨⟨-1, 1⟩, ⟨5, 1⟩⟩, ⟨⟨0, 0⟩, ⟨4, 0⟩, ⟨0, 4⟩⟩, true, Intersection_results.SEGMENT,
          ⟨0, 1⟩, ⟨3, 1⟩⟩) := by
    rw [intersection_type_make]
    norm_num [clipped, cut_lines, rational_kernel, oriented_side, orientation_det,
      Straight_2_.from_segment, Straight_2_.cut_right_off, Straight_2_.current_state,
      Straight_2_.current_segment, Straight_2_.current_point, Segment_2.point_at,
      List.foldl]
  obtain ⟨obj, h1, h2, _, _, hseg⟩ :=
    intersection_agrees_with_classifier rational_kernel rational_defaults _ _ _ _ h
  have e : obj = Object.segment ⟨⟨0, 1⟩, ⟨3, 1⟩⟩ := (hseg _).mpr ⟨rfl, rfl⟩
  rw [h1, h2, e]
  exact ⟨rfl, rfl⟩

end ClassifierClaims

/-! ## The half-planes of a triangle -/

/-- A point is not on the negative side of a directed line exactly when its orientation
determinant with the line is non-negative. -/
theorem oriented_side_ne_negative (l : Line_2 QPoint_2) (p : QPoint_2) :
    oriented_side l p ≠ Oriented_side.ON_NEGATIVE_SIDE ↔ 0 ≤ orientation_det l.p l.q p := by
  unfold oriented_side
  by_cases h1 : 0 < orientation_det l.p l.q p
  · simp only [h1, if_true]
    exact ⟨fun _ => le_of_lt h1, fun _ => by simp⟩
  · by_cases h2 : orientation_det l.p l.q p < 0
    · simp only [h1, h2, if_false, if_true]
      exact ⟨fun h => absurd rfl h, fun h => absurd h (not_le.mpr h2)⟩
    · simp only [h1, h2, if_false]
      exact ⟨fun _ => not_lt.mp h2, fun _ => by simp⟩

/-- The third vertex is on the positive side of the line through the first two exactly
when the orientation determinant of the triangle is positive. -/
theorem oriented_side_eq_positive (l : Line_2 QPoint_2) (p : QPoint_2) :
    oriented_side l p = Oriented_side.ON_POSITIVE_SIDE ↔ 0 < orientation_det l.p l.q p := by
  unfold oriented_side
  by_cases h1 : 0 < orientation_det l.p l.q p
  · simp [h1]
  · by_cases h2 : orientation_det l.p l.q p < 0 <;> simp [h1, h2]

/-- The three orientation determinants of a point against the edges of a triangle add up
to the orientation determinant of the triangle. -/
theorem orientation_det_sum (u v w p : QPoint_2) :
    orientation_det v w p + orientation_det w u p + orientation_det u v p =
      orientation_det u v w := by
  unfold orientation_det; ring

/-- C16: for a triangle with non-collinear vertices `v0`, `v1`, `v2` with rational
coordinates, counter-clockwise or clockwise, a point is on or to the left of each of the
three directed lines `intersection_type()` hands to `cut_right_off` if and only if it is
a convex combination of `v0`, `v1`, `v2`. -/
theorem cut_lines_face_inward (t : Triangle_2 QPoint_2) (p : QPoint_2)
    (hnc : orientation_det t.v0 t.v1 t.v2 ≠ 0) :
    (∀ l, l ∈ cut_lines oriented_side t →
      oriented_side l p ≠ Oriented_side.ON_NEGATIVE_SIDE) ↔
    ∃ a b c : ℚ, 0 ≤ a ∧ 0 ≤ b ∧ 0 ≤ c ∧ a + b + c = 1 ∧
      p.x = a * t.v0.x + b * t.v1.x + c * t.v2.x ∧
      p.y = a * t.v0.y + b * t.v1.y + c * t.v2.y := by
  have hsum := orientation_det_sum t.v0 t.v1 t.v2 p
  -- the determinants of a convex combination
  have hcomb : ∀ a b c : ℚ, a + b + c = 1 →
      p.x = a * t.v0.x + b * t.v1.x + c * t.v2.x →
      p.y = a * t.v0.y + b * t.v1.y + c * t.v2.y →
      orientation_det t.v1 t.v2 p = a * orientation_det t.v0 t.v1 t.v2 ∧
      orientation_det t.v2 t.v0 p = b * orientation_det t.v0 t.v1 t.v2 ∧
      orientation_det t.v0 t.v1 p = c * orientation_det t.v0 t.v1 t.v2 := by
    intro a b c habc hx hy
    have ha : a = 1 - b - c := by linarith
    subst ha
    unfold orientation_det
    rw [hx, hy]
    refine ⟨by ring, by ring, by ring⟩
  -- the coordinates of a point from its determinants
  have hx : orientation_det t.v1 t.v2 p * t.v0.x + orientation_det t.v2 t.v0 p * t.v1.x +
      orientation_det t.v0 t.v1 p * t.v2.x = orientation_det t.v0 t.v1 t.v2 * p.x := by
    unfold orientation_det; ring
  have hy : orientation_det t.v1 t.v2 p * t.v0.y + orientation_det t.v2 t.v0 p * t.v1.y +
      orientation_det t.v0 t.v1 p * t.v2.y = orientation_det t.v0 t.v1 t.v2 * p.y := by
    unfold orientation_det; ring
  have hflip : ∀ u v : QPoint_2, orientation_det v u p = - orientation_det u v p := by
    intro u v; unfold orientation_det; ring
  rcases lt_or_gt_of_ne hnc with hneg | hpos
  · -- clockwise: the else branch
    have hbranch : cut_lines oriented_side t =
        [⟨t.v2, t.v1⟩, ⟨t.v1, t.v0⟩, ⟨t.v0, t.v2⟩] := by
      unfold cut_lines
      rw [if_neg]
      rw [oriented_side_eq_positive]
      exact not_lt.mpr (le_of_lt hneg)
    simp only [hbranch, List.mem_cons, List.mem_nil_iff, or_false, forall_eq_or_imp,
      forall_eq, oriented_side_ne_negative, hflip t.v1 t.v2, hflip t.v0 t.v1,
      hflip t.v2 t.v0]
    constructor
    · rintro ⟨h12, h01, h20⟩
      refine ⟨orientation_det t.v1 t.v2 p / orientation_det t.v0 t.v1 t.v2,
        orientation_det t.v2 t.v0 p / orientation_det t.v0 t.v1 t.v2,
        orientation_det t.v0 t.v1 p / orientation_det t.v0 t.v1 t.v2,
        div_nonneg_of_nonpos (by linarith) (le_of_lt hneg),
        div_nonneg_of_nonpos (by linarith) (le_of_lt hneg),
        div_nonneg_of_nonpos (by linarith) (le_of_lt hneg), ?_, ?_, ?_⟩
      · rw [← add_div, ← add_div, hsum, div_self hnc]
      · field_simp; linarith
      · field_simp; linarith
    · rintro ⟨a, b, c, ha, hb, hc, habc, hpx, hpy⟩
      obtain ⟨e1, e2, e3⟩ := hcomb a b c habc hpx hpy
      rw [e1, e2, e3]
      refine ⟨?_, ?_, ?_⟩
      · have := mul_nonpos_of_nonneg_of_nonpos ha (le_of_lt hneg); linarith
      · have := mul_nonpos_of_nonneg_of_nonpos hc (le_of_lt hneg); linarith
      · have := mul_nonpos_of_nonneg_of_nonpos hb (le_of_lt hneg); linarith
  · -- counter-clockwise: the then branch
    have hbranch : cut_lines oriented_side t =
        [⟨t.v0, t.v1⟩, ⟨t.v1, t.v2⟩, ⟨t.v2, t.v0⟩] := by
      unfold cut_lines
      rw [if_pos]
      rw [oriented_side_eq_positive]
      exact hpos
    simp only [hbranch, List.mem_cons, List.mem_nil_iff, or_false, forall_eq_or_imp,
      forall_eq, oriented_side_ne_negative]
    constructor
    · rintro ⟨h01, h12, h20⟩
      refine ⟨orientation_det t.v1 t.v2 p / orientation_det t.v0 t.v1 t.v2,
        orientation_det t.v2 t.v0 p / orientation_det t.v0 t.v1 t.v2,
        orientation_det t.v0 t.v1 p / orientation_det t.v0 t.v1 t.v2,
        div_nonneg h12 (le_of_lt hpos), div_nonneg h20 (le_of_lt hpos),
        div_nonneg h01 (le_of_lt hpos), ?_, ?_, ?_⟩
      · rw [← add_div, ← add_div, hsum, div_self hnc]
      · field_simp; linarith
      · field_simp; linarith
    · rintro ⟨a, b, c, ha, hb, hc, habc, hpx, hpy⟩
      obtain ⟨e1, e2, e3⟩ := hcomb a b c habc hpx hpy
      rw [e1, e2, e3]
      exact ⟨mul_nonneg hc (le_of_lt hpos), mul_nonneg ha (le_of_lt hpos),
        mul_nonneg hb (le_of_lt hpos)⟩

theorem cut_lines_face_inward_witness :
    cut_lines oriented_side (⟨⟨0, 0⟩, ⟨0, 4⟩, ⟨4, 0⟩⟩ : Triangle_2 QPoint_2) =
        [⟨⟨4, 0⟩, ⟨0, 4⟩⟩, ⟨⟨0, 4⟩, ⟨0, 0⟩⟩, ⟨⟨0, 0⟩, ⟨4, 0⟩⟩] ∧
      ∃ a b c : ℚ, 0 ≤ a ∧ 0 ≤ b ∧ 0 ≤ c ∧ a + b + c = 1 ∧
        (⟨1, 1⟩ : QPoint_2).x = a * (⟨⟨0, 0⟩, ⟨0, 4⟩, ⟨4, 0⟩⟩ : Triangle_2 QPoint_2).v0.x +
          b * (⟨⟨0, 0⟩, ⟨0, 4⟩, ⟨4, 0⟩⟩ : Triangle_2 QPoint_2).v1.x +
          c * (⟨⟨0, 0⟩, ⟨0, 4⟩, ⟨4, 0⟩⟩ : Triangle_2 QPoint_2).v2.x ∧
        (⟨1, 1⟩ : QPoint_2).y = a * (⟨⟨0, 0⟩, ⟨0, 4⟩, ⟨4, 0⟩⟩ : Triangle_2 QPoint_2).v0.y +
          b * (⟨⟨0, 0⟩, ⟨0, 4⟩, ⟨4, 0⟩⟩ : Triangle_2 QPoint_2).v1.y +
          c * (⟨⟨0, 0⟩, ⟨0, 4⟩, ⟨4, 0⟩⟩ : Triangle_2 QPoint_2).v2.y := by
  have hlines : cut_lines oriented_side (⟨⟨0, 0⟩, ⟨0, 4⟩, ⟨4, 0⟩⟩ : Triangle_2 QPoint_2) =
      [⟨⟨4, 0⟩, ⟨0, 4⟩⟩, ⟨⟨0, 4⟩, ⟨0, 0⟩⟩, ⟨⟨0, 0⟩, ⟨4, 0⟩⟩] := by
    norm_num [cut_lines, oriented_side, orientation_det]
    decide
  refine ⟨hlines, (cut_lines_face_inward ⟨⟨0, 0⟩, ⟨0, 4⟩, ⟨4, 0⟩⟩ ⟨1, 1⟩
    (by norm_num [orientation_det])).mp ?_⟩
  intro l hl
  rw [hlines] at hl
  simp only [List.mem_cons, List.mem_nil_iff, or_false] at hl
  rcases hl with rfl | rfl | rfl <;> (norm_num [oriented_side, orientation_det]; decide)

/-! ## The two matchers on sequences of equal length -/

/-- Offsets that grow from each index to the next grow by at least the distance between
the indices. -/
theorem offset_gap (k : Nat → Nat) (n : Nat)
    (hstep : ∀ j, j + 1 < n → k j < k (j + 1)) :
    ∀ d j, j + d < n → k j + d ≤ k (j + d) := by
  intro d
  induction d with
  | zero => intro j _; exact Nat.le_refl _
  | succ d ih =>
    intro j hj
    have h1 := ih j (by omega)
    have h2 := hstep (j + d) (by omega)
    rw [Nat.add_assoc] at h2
    omega

section EqualLengthClaims

variable {α : Type} [DecidableEq α]

/-- C22: on non-empty sequences of the same length, when the Steiner-tolerant matcher
returns `true` the exact matcher returns `true` as well. -/
theorem polygons_w_steiner_are_equal_implies_equal (K : Kernel α) (P Q : List α)
    (hP : P ≠ []) (hQ : Q ≠ []) (hlen : P.length = Q.length)
    (h : polygons_w_steiner_are_equal K P Q = some true) :
    polygons_are_equal P Q = some true := by
  have hn : 0 < P.length := List.length_pos.mpr hP
  obtain ⟨a, ha, hfound, hfirst, k, _, hkstep, hkbound, hkmatch⟩ :=
    polygons_w_steiner_are_equal_offsets K P Q hP hQ h
  -- with no room for extra vertices the offsets are the indices
  have hk : ∀ j, j < P.length → k j = j := by
    intro j hj
    have hlow := index_le_offset k P.length hkstep j hj
    have hgap := offset_gap k P.length hkstep (P.length - 1 - j) j (by omega)
    have hlast := hkbound (P.length - 1) (by omega)
    have e : j + (P.length - 1 - j) = P.length - 1 := by omega
    rw [e] at hgap
    omega
  obtain ⟨a', b, _, _, hanchor, hb, hiff⟩ := polygons_are_equal_spec P Q hP hQ
  have haa : a' = a := by
    rcases hanchor with ⟨hf', hfirst'⟩ | ⟨_, hnone⟩
    · rcases Nat.lt_trichotomy a' a with h1 | h1 | h1
      · exact absurd hf' (hfirst a' h1)
      · exact h1
      · exact absurd hfound (hfirst' a h1)
    · exact absurd hfound (hnone a ha)
  subst haa
  have hbt : b = true := by
    rw [hiff]
    refine ⟨hlen, fun i _ hi => ?_⟩
    have := hkmatch i hi
    rwa [hk i hi] at this
  rw [hb, hbt]

theorem polygons_w_steiner_are_equal_implies_equal_witness :
    polygons_w_steiner_are_equal point_kernel ([⟨0, 0⟩, ⟨4, 0⟩, ⟨0, 4⟩] : List Point_2)
        [⟨0, 4⟩, ⟨0, 0⟩, ⟨4, 0⟩] = some true ∧
      polygons_are_equal ([⟨0, 0⟩, ⟨4, 0⟩, ⟨0, 4⟩] : List Point_2)
        [⟨0, 4⟩, ⟨0, 0⟩, ⟨4, 0⟩] = some true :=
  ⟨by decide,
    polygons_w_steiner_are_equal_implies_equal point_kernel _ _ (by decide) (by decide)
      (by decide) (by decide)⟩

end EqualLengthClaims

/-! ## The half-planes of a degenerate triangle -/

/-- Two points with the same coordinates are equal. -/
theorem QPoint_2.eq_of_coords (p q : QPoint_2) (hx : p.x = q.x) (hy : p.y = q.y) :
    p = q := by
  cases p; cases q; simp_all

/-- Two points that are each collinear with a pair of distinct points `u`, `v` are
collinear with `u`. -/
theorem orientation_det_of_collinear (u v w p : QPoint_2) (huv : u ≠ v)
    (hw : orientation_det u v w = 0) (hp : orientation_det u v p = 0) :
    orientation_det u w p = 0 := by
  have hx : (v.x - u.x) * orientation_det u w p =
      (w.x - u.x) * orientation_det u v p - (p.x - u.x) * orientation_det u v w := by
    unfold orientation_det; ring
  have hy : (v.y - u.y) * orientation_det u w p =
      (w.y - u.y) * orientation_det u v p - (p.y - u.y) * orientation_det u v w := by
    unfold orientation_det; ring
  rw [hw, hp] at hx hy
  simp only [mul_zero, sub_zero] at hx hy
  rcases mul_eq_zero.mp hx with h1 | h1
  · rcases mul_eq_zero.mp hy with h2 | h2
    · exact absurd (QPoint_2.eq_of_coords u v (by linarith) (by linarith)) huv
    · exact h2
  · exact h1

/-- C21: for a triangle whose vertices are distinct and collinear, `intersection_type()`
takes the else branch, and a point is on or to the left of each of the three directed
lines `v2 v1`, `v1 v0`, `v0 v2` handed to `cut_right_off` if and only if it lies on the
line through the vertices.  So every point `v0 + s (v1 - v0)` of that line is kept, and
some of them are not convex combinations of the vertices.  (Of the distinctness of the
vertices only `v0 ≠ v1` is used.) -/
theorem cut_lines_degenerate (t : Triangle_2 QPoint_2)
    (h01 : t.v0 ≠ t.v1) (hcol : orientation_det t.v0 t.v1 t.v2 = 0) :
    cut_lines oriented_side t = [⟨t.v2, t.v1⟩, ⟨t.v1, t.v0⟩, ⟨t.v0, t.v2⟩] ∧
    (∀ p, (∀ l, l ∈ cut_lines oriented_side t →
        oriented_side l p ≠ Oriented_side.ON_NEGATIVE_SIDE) ↔
      orientation_det t.v0 t.v1 p = 0) ∧
    (∀ s : ℚ, ∀ l, l ∈ cut_lines oriented_side t →
      oriented_side l
        ⟨t.v0.x + s * (t.v1.x - t.v0.x), t.v0.y + s * (t.v1.y - t.v0.y)⟩
        ≠ Oriented_side.ON_NEGATIVE_SIDE) ∧
    (∃ p, (∀ l, l ∈ cut_lines oriented_side t →
        oriented_side l p ≠ Oriented_side.ON_NEGATIVE_SIDE) ∧
      ¬ ∃ a b c : ℚ, 0 ≤ a ∧ 0 ≤ b ∧ 0 ≤ c ∧ a + b + c = 1 ∧
        p.x = a * t.v0.x + b * t.v1.x + c * t.v2.x ∧
        p.y = a * t.v0.y + b * t.v1.y + c * t.v2.y) := by
  have hbranch : cut_lines oriented_side t =
      [⟨t.v2, t.v1⟩, ⟨t.v1, t.v0⟩, ⟨t.v0, t.v2⟩] := by
    unfold cut_lines
    rw [if_neg]
    rw [oriented_side_eq_positive, hcol]
    exact lt_irrefl 0
  have hkept : ∀ p, (∀ l, l ∈ cut_lines oriented_side t →
        oriented_side l p ≠ Oriented_side.ON_NEGATIVE_SIDE) ↔
      orientation_det t.v0 t.v1 p = 0 := by
    intro p
    have hsum := orientation_det_sum t.v2 t.v1 t.v0 p
    have hrev : orientation_det t.v2 t.v1 t.v0 = - orientation_det t.v0 t.v1 t.v2 := by
      unfold orientation_det; ring
    have hflip : orientation_det t.v1 t.v0 p = - orientation_det t.v0 t.v1 p := by
      unfold orientation_det; ring
    rw [hrev, hcol, neg_zero] at hsum
    simp only [hbranch, List.mem_cons, List.mem_nil_iff, or_false, forall_eq_or_imp,
      forall_eq, oriented_side_ne_negative]
    constructor
    · rintro ⟨hA, hB, hC⟩
      linarith
    · intro hD
      have hC := orientation_det_of_collinear t.v0 t.v1 t.v2 p h01 hcol hD
      refine ⟨?_, ?_, ?_⟩ <;> linarith
  have hline : ∀ s : ℚ, orientation_det t.v0 t.v1
      ⟨t.v0.x + s * (t.v1.x - t.v0.x), t.v0.y + s * (t.v1.y - t.v0.y)⟩ = 0 := by
    intro s; unfold orientation_det; ring
  refine ⟨hbranch, hkept, fun s => (hkept _).mpr (hline s), ?_⟩
  -- a point of the line beyond all three vertices
  by_cases hdx : t.v1.x - t.v0.x = 0
  · have hdy : t.v1.y - t.v0.y ≠ 0 := fun h =>
      h01 (QPoint_2.eq_of_coords _ _ (by linarith) (by linarith))
    refine ⟨⟨t.v0.x + ((|t.v0.y| + |t.v1.y| + |t.v2.y| + 1 - t.v0.y) / (t.v1.y - t.v0.y)) *
        (t.v1.x - t.v0.x),
      t.v0.y + ((|t.v0.y| + |t.v1.y| + |t.v2.y| + 1 - t.v0.y) / (t.v1.y - t.v0.y)) *
        (t.v1.y - t.v0.y)⟩, (hkept _).mpr (hline _), ?_⟩
    rintro ⟨a, b, c, ha, hb, hc, habc, _, hy⟩
    simp only [div_mul_cancel₀ _ hdy] at hy
    have h0 := le_abs_self t.v0.y
    have h1 := le_abs_self t.v1.y
    have h2 := le_abs_self t.v2.y
    have a0 := abs_nonneg t.v0.y
    have a1 := abs_nonneg t.v1.y
    have a2 := abs_nonneg t.v2.y
    have e0 := mul_le_mul_of_nonneg_left
      (show t.v0.y ≤ |t.v0.y| + |t.v1.y| + |t.v2.y| by linarith) ha
    have e1 := mul_le_mul_of_nonneg_left
      (show t.v1.y ≤ |t.v0.y| + |t.v1.y| + |t.v2.y| by linarith) hb
    have e2 := mul_le_mul_of_nonneg_left
      (show t.v2.y ≤ |t.v0.y| + |t.v1.y| + |t.v2.y| by linarith) hc
    have hs : a * (|t.v0.y| + |t.v1.y| + |t.v2.y|) + b * (|t.v0.y| + |t.v1.y| + |t.v2.y|) +
        c * (|t.v0.y| + |t.v1.y| + |t.v2.y|) = |t.v0.y| + |t.v1.y| + |t.v2.y| := by
      rw [← add_mul, ← add_mul, habc, one_mul]
    linarith
  · refine ⟨⟨t.v0.x + ((|t.v0.x| + |t.v1.x| + |t.v2.x| + 1 - t.v0.x) / (t.v1.x - t.v0.x)) *
        (t.v1.x - t.v0.x),
      t.v0.y + ((|t.v0.x| + |t.v1.x| + |t.v2.x| + 1 - t.v0.x) / (t.v1.x - t.v0.x)) *
        (t.v1.y - t.v0.y)⟩, (hkept _).mpr (hline _), ?_⟩
    rintro ⟨a, b, c, ha, hb, hc, habc, hx, _⟩
    simp only [div_mul_cancel₀ _ hdx] at hx
    have h0 := le_abs_self t.v0.x
    have h1 := le_abs_self t.v1.x
    have h2 := le_abs_self t.v2.x
    have a0 := abs_nonneg t.v0.x
    have a1 := abs_nonneg t.v1.x
    have a2 := abs_nonneg t.v2.x
    have e0 := mul_le_mul_of_nonneg_left
      (show t.v0.x ≤ |t.v0.x| + |t.v1.x| + |t.v2.x| by linarith) ha
    have e1 := mul_le_mul_of_nonneg_left
      (show t.v1.x ≤ |t.v0.x| + |t.v1.x| + |t.v2.x| by linarith) hb
    have e2 := mul_le_mul_of_nonneg_left
      (show t.v2.x ≤ |t.v0.x| + |t.v1.x| + |t.v2.x| by linarith) hc
    have hs : a * (|t.v0.x| + |t.v1.x| + |t.v2.x|) + b * (|t.v0.x| + |t.v1.x| + |t.v2.x|) +
        c * (|t.v0.x| + |t.v1.x| + |t.v2.x|) = |t.v0.x| + |t.v1.x| + |t.v2.x| := by
      rw [← add_mul, ← add_mul, habc, one_mul]
    linarith

theorem cut_lines_degenerate_witness :
    cut_lines oriented_side (⟨⟨0, 0⟩, ⟨1, 1⟩, ⟨2, 2⟩⟩ : Triangle_2 QPoint_2) =
        [⟨⟨2, 2⟩, ⟨1, 1⟩⟩, ⟨⟨1, 1⟩, ⟨0, 0⟩⟩, ⟨⟨0, 0⟩, ⟨2, 2⟩⟩] ∧
      (∀ l, l ∈ cut_lines oriented_side (⟨⟨0, 0⟩, ⟨1, 1⟩, ⟨2, 2⟩⟩ : Triangle_2 QPoint_2) →
        oriented_side l ⟨5, 5⟩ ≠ Oriented_side.ON_NEGATIVE_SIDE) ∧
      (Segment_2_Triangle_2_pair.make rational_defaults ⟨⟨-3, -3⟩, ⟨5, 5⟩⟩
          ⟨⟨0, 0⟩, ⟨1, 1⟩, ⟨2, 2⟩⟩).intersection_type rational_kernel =
        some (Intersection_results.SEGMENT,
          ⟨⟨⟨-3, -3⟩, ⟨5, 5⟩⟩, ⟨⟨0, 0⟩, ⟨1, 1⟩, ⟨2, 2⟩⟩, true,
            Intersection_results.SEGMENT, ⟨-3, -3⟩, ⟨5, 5⟩⟩) := by
  have w := cut_lines_degenerate (⟨⟨0, 0⟩, ⟨1, 1⟩, ⟨2, 2⟩⟩ : Triangle_2 QPoint_2)
    (by norm_num) (by norm_num [orientation_det])
  refine ⟨w.1, (w.2.1 ⟨5, 5⟩).mpr (by norm_num [orientation_det]), ?_⟩
  rw [intersection_type_make]
  norm_num [clipped, cut_lines, rational_kernel, oriented_side, orientation_det,
    Straight_2_.from_segment, Straight_2_.cut_right_off, Straight_2_.current_state,
    Straight_2_.current_segment, Straight_2_.current_point, Segment_2.point_at,
    List.foldl]

end CGAL
